import Mathlib

/-!
# The checker Hub of `protoc-gen-go-tableau-checker`

A shallow embedding of the Go code that `hub.go` emits as `staticHubContent`:
the `Hub` registry, `Register`, `load`, `check`, `Run`, and the functional
options (`Options`, `BreakFailedCount`, `SubdirRewrites`, `newDefault`,
`ParseOptions`).

Modelling decisions.

* A Go `error` is `Option Err` (`none` is `nil`).  `Err` keeps the two ways the
  code builds errors: a plain message (`fmt.Errorf`) and a cause wrapped with a
  message (`errors.WithMessagef` of `github.com/pkg/errors`).
* A `tableau.Messager` interface value is a reference, modelled by a number.
  Its methods live in the loader package, outside this repository; their
  behaviour is the parameter `Env`.
* A Go `map` is an association list.  `range` over a map visits the entries in
  an unspecified order, so every `range` statement takes a `RangeOrder`: a
  function giving, for each map, some permutation of its entries.
* Go `int` is `Int`; the only arithmetic is `failedCount++`, bounded by the
  number of map entries.
* The calls made on checkers (`Load`, `Check`) are recorded in a call trace.
  Output written with `log` is not modelled.
-/

namespace Checker

/-! ## Errors -/

/-- Go `error` values built by the hub: `fmt.Errorf` messages and
`errors.WithMessagef` wrappers. -/
inductive Err where
  | msg (s : String)
  | withMessage (cause : Err) (s : String)
  deriving DecidableEq, Repr

/-- The `Error()` string.  For a wrapper, `pkg/errors` prints the message, a
colon and the cause. -/
def Err.Error : Err → String
  | .msg s => s
  | .withMessage cause s => s ++ ": " ++ cause.Error

/-- The wrapped cause, as returned by `Unwrap()`. -/
def Err.Unwrap : Err → Option Err
  | .msg _ => none
  | .withMessage cause _ => some cause

/-! ## External collaborators -/

/-- A `tableau.Messager` interface value (a reference to a checker). -/
abbrev Messager := Nat

/-- A `format.Format` value. -/
abbrev Format := Nat

/-- A `map[string]string`; the nil map and the empty map are both `[]`. -/
abbrev StrMap := List (String × String)

/-- A `tableau.MessagerMap`, that is `map[string]Messager`. -/
abbrev MessagerMap := List (String × Messager)

/-- A `tableau.Filter`; `none` is the nil interface. -/
abbrev Filter := Option (String → Bool)

/-- Behaviour of the code outside this repository: the methods of
`tableau.Messager` and `NewMessagerMap` of the embedded `tableau.Hub`. -/
structure Env where
  /-- `m.Name()` -/
  Name : Messager → String
  /-- `m.Messager()` -/
  messagerOf : Messager → Messager
  /-- `m.Load(dir, format, load.SubdirRewrites(rewrites))` -/
  Load : Messager → String → Format → StrMap → Option Err
  /-- `m.Check()` -/
  Check : Messager → Option Err
  /-- `h.NewMessagerMap(filter)` -/
  NewMessagerMap : Filter → MessagerMap

/-- One call made on a checker. -/
inductive Call where
  | load (m : Messager) (dir : String) (format : Format) (rewrites : StrMap)
  | check (m : Messager)
  deriving DecidableEq, Repr

/-- Whether a call is a `Check` call. -/
def Call.isCheck : Call → Bool
  | .check _ => true
  | .load _ _ _ _ => false

/-- Whether a call is a `Load` call. -/
def Call.isLoad : Call → Bool
  | .check _ => false
  | .load _ _ _ _ => true

/-! ## Maps -/

/-- The names (keys) of a map. -/
def names (m : MessagerMap) : List String := m.map Prod.fst

/-- Map lookup `m[name]`. -/
def get (m : MessagerMap) (name : String) : Option Messager :=
  (m.find? (fun e => decide (e.1 = name))).map Prod.snd

/-- Map assignment `m[name] = v`: any entry under `name` is dropped and the new
one added. -/
def set (m : MessagerMap) (name : String) (v : Messager) : MessagerMap :=
  (name, v) :: m.filter (fun e => decide (e.1 ≠ name))

/-- The order in which one `range` statement visits a map. -/
structure RangeOrder where
  pick : MessagerMap → List (String × Messager)
  perm : ∀ m, (pick m).Perm m

/-- The order that visits the entries as they are stored. -/
def RangeOrder.stored : RangeOrder := ⟨fun m => m, fun m => List.Perm.refl m⟩

/-- The order that visits the entries in reverse. -/
def RangeOrder.reversed : RangeOrder := ⟨fun m => m.reverse, fun m => List.reverse_perm m⟩

/-! ## Options -/

/-- The `Options` struct. -/
structure Options where
  BreakFailedCount : Int
  SubdirRewrites : StrMap
  deriving DecidableEq, Repr

/-- The functional option type `Option`, a `func(*Options)`: the update it
performs on the struct it is given. -/
abbrev OptionFunc := Options → Options

/-- `BreakFailedCount(count)`. -/
def BreakFailedCount (count : Int) : OptionFunc :=
  fun opts => { opts with BreakFailedCount := count }

/-- `SubdirRewrites(subdirRewrites)`. -/
def SubdirRewrites (subdirRewrites : StrMap) : OptionFunc :=
  fun opts => { opts with SubdirRewrites := subdirRewrites }

/-- `newDefault()`: only `BreakFailedCount` is set, `SubdirRewrites` is the
zero value. -/
def newDefault : Options := { BreakFailedCount := 1, SubdirRewrites := [] }

/-- `ParseOptions(setters...)`. -/
def ParseOptions (setters : List OptionFunc) : Options :=
  let opts := setters.foldl (fun opts setter => setter opts) newDefault
  if opts.BreakFailedCount ≤ 1 then { opts with BreakFailedCount := 1 } else opts

/-! ## The hub -/

/-- The `Hub` struct.  `messagerMap` stands for the embedded `*tableau.Hub`: it
is the map last handed to `SetMessagerMap`. -/
structure Hub where
  messagerMap : MessagerMap
  checkerMap : MessagerMap
  filteredCheckerMap : MessagerMap
  deriving DecidableEq, Repr

/-- What a method leaves behind: the hub, the calls it made on checkers, and
its return value. -/
structure Outcome (α : Type) where
  hub : Hub
  calls : List Call
  ret : α

/-- Modelled from the spec: `SetMessagerMap` of the embedded `tableau.Hub`, whose
source is in the loader package and not in this repository.  It sets the
registry's active (published) messager set to the map it is given. -/
def Hub.SetMessagerMap (h : Hub) (m : MessagerMap) : Hub :=
  { h with messagerMap := m }

/-- `h.Register(msger)`: the new hub and the returned error. -/
def Hub.Register (env : Env) (h : Hub) (msger : Messager) : Hub × Option Err :=
  ({ h with checkerMap := set h.checkerMap (env.Name (env.messagerOf msger)) msger }, none)

/-- The loop of `Hub.load` over the entries in visiting order: the `Load` calls
made and the error returned from inside the loop, if any. -/
def loadLoop (env : Env) (dir : String) (format : Format) (subdirRewrites : StrMap) :
    List (String × Messager) → List Call × Option Err
  | [] => ([], none)
  | (name, msger) :: rest =>
    match env.Load msger dir format subdirRewrites with
    | some err =>
      ([Call.load msger dir format subdirRewrites],
        some (Err.withMessage err ("failed to load " ++ name)))
    | none =>
      let r := loadLoop env dir format subdirRewrites rest
      (Call.load msger dir format subdirRewrites :: r.1, r.2)

/-- `h.load(dir, format, subdirRewrites)`. -/
def Hub.load (env : Env) (ρ : RangeOrder) (h : Hub) (dir : String) (format : Format)
    (subdirRewrites : StrMap) : Outcome (Option Err) :=
  match loadLoop env dir format subdirRewrites (ρ.pick h.filteredCheckerMap) with
  | (calls, some err) => ⟨h, calls, some err⟩
  | (calls, none) => ⟨h.SetMessagerMap h.filteredCheckerMap, calls, none⟩

/-- The loop of `Hub.check` over the entries in visiting order, from a running
`failedCount`: the `Check` calls made and the final `failedCount`. -/
def checkLoop (env : Env) (breakFailedCount : Int) :
    List (String × Messager) → Int → List Call × Int
  | [], failedCount => ([], failedCount)
  | (_, checker) :: rest, failedCount =>
    let failedCount := if (env.Check checker).isSome then failedCount + 1 else failedCount
    if failedCount ≠ 0 ∧ failedCount ≥ breakFailedCount then
      ([Call.check checker], failedCount)
    else
      let r := checkLoop env breakFailedCount rest failedCount
      (Call.check checker :: r.1, r.2)

/-- `h.check(breakFailedCount)`. -/
def Hub.check (env : Env) (ρ : RangeOrder) (h : Hub) (breakFailedCount : Int) : Outcome Int :=
  let r := checkLoop env breakFailedCount (ρ.pick h.filteredCheckerMap) 0
  ⟨h, r.1, r.2⟩

/-- Whether `filter == nil || filter.Filter(name)`. -/
def accepts (filter : Filter) (name : String) : Bool :=
  match filter with
  | none => true
  | some f => f name

/-- The local `filteredCheckerMap` that `Run` builds: `h.NewMessagerMap(filter)`
with the accepted registered checkers written over it. -/
def Hub.newFiltered (env : Env) (ρ : RangeOrder) (h : Hub) (filter : Filter) : MessagerMap :=
  (ρ.pick h.checkerMap).foldl
    (fun acc e => if accepts filter e.1 then set acc e.1 (env.messagerOf e.2) else acc)
    (env.NewMessagerMap filter)

/-- The hub once `Run` has stored the map it built in `h.filteredCheckerMap`. -/
def Hub.selected (env : Env) (ρ : RangeOrder) (h : Hub) (filter : Filter) : Hub :=
  { h with filteredCheckerMap := h.newFiltered env ρ filter }

/-- `h.Run(dir, filter, format, options...)`.  The three orders are those of
the `range` statements in `Run`, `load` and `check`. -/
def Hub.Run (env : Env) (ρ₀ ρ₁ ρ₂ : RangeOrder) (h : Hub) (dir : String) (filter : Filter)
    (format : Format) (options : List OptionFunc) : Outcome (Option Err) :=
  let opts := ParseOptions options
  let h := h.selected env ρ₀ filter
  let l := h.load env ρ₁ dir format opts.SubdirRewrites
  match l.ret with
  | some err => ⟨l.hub, l.calls, some err⟩
  | none =>
    let c := l.hub.check env ρ₂ opts.BreakFailedCount
    if c.ret ≠ 0 then
      ⟨c.hub, l.calls ++ c.calls, some (Err.msg ("Check failed count: " ++ toString c.ret))⟩
    else
      ⟨c.hub, l.calls ++ c.calls, none⟩

/-! ## Vocabulary of the statements -/

/-- Whether `Check` fails on the checker of an entry. -/
def failsCheck (env : Env) (e : String × Messager) : Bool := (env.Check e.2).isSome

/-- Whether `Load` fails on the checker of an entry. -/
def failsLoad (env : Env) (dir : String) (format : Format) (rw : StrMap)
    (e : String × Messager) : Bool :=
  (env.Load e.2 dir format rw).isSome

/-- The `Check` call on the checker of an entry. -/
def checkCall (e : String × Messager) : Call := Call.check e.2

/-- The `Load` call on the checker of an entry. -/
def loadCall (dir : String) (format : Format) (rw : StrMap) (e : String × Messager) : Call :=
  Call.load e.2 dir format rw

/-- The calls are the `Check` calls on the entries of `o` up to and including
the `k`-th one whose `Check` fails. -/
def ChecksThroughKthFailure (env : Env) (o : List (String × Messager)) (k : Int)
    (calls : List Call) : Prop :=
  ∃ pre c post, o = pre ++ c :: post ∧ failsCheck env c = true ∧
    (pre.countP (failsCheck env) : Int) + 1 = k ∧ calls = (pre ++ [c]).map checkCall

/-- The calls are the `Load` calls on the entries of `o` up to and including
the first one whose `Load` fails, which is `c` and fails with `cause`. -/
def LoadsThroughFirstFailure (env : Env) (dir : String) (format : Format) (rw : StrMap)
    (o : List (String × Messager)) (c : String × Messager) (cause : Err)
    (calls : List Call) : Prop :=
  ∃ pre post, o = pre ++ c :: post ∧ (∀ e ∈ pre, failsLoad env dir format rw e = false) ∧
    env.Load c.2 dir format rw = some cause ∧
    calls = (pre ++ [c]).map (loadCall dir format rw) ∧ calls.length = pre.length + 1

/-- The order that visits `m` as `o` says, a permutation of `m`, and any other
map as stored. -/
def RangeOrder.visiting (m : MessagerMap) (o : List (String × Messager)) (hp : o.Perm m) :
    RangeOrder where
  pick := fun x => if x = m then o else x
  perm := by
    intro x
    by_cases hx : x = m
    · simp only [hx, if_true]
      exact hp
    · simp only [hx, if_false]
      exact List.Perm.refl x

/-- An environment for examples: references 1 and 11 are named `"A"`, 2 is
`"B"`, 3 is `"C"`, 4 is `"D"`; `Messager()` is the receiver; `Load` fails on
multiples of 5, `Check` fails on odd references, and `NewMessagerMap` yields
the one entry `"X"` when the filter accepts that name. -/
def demoEnv : Env where
  Name := fun m =>
    match m with
    | 1 => "A"
    | 11 => "A"
    | 2 => "B"
    | 3 => "C"
    | 4 => "D"
    | _ => "other"
  messagerOf := fun m => m
  Load := fun m _ _ _ => if m % 5 = 0 then some (Err.msg "no file") else none
  Check := fun m => if m % 2 = 1 then some (Err.msg "bad row") else none
  NewMessagerMap := fun filter => if accepts filter "X" then [("X", 8)] else []

/-- The two options the package offers, as data. -/
inductive OptionKind where
  | breakFailedCount (n : Int)
  | subdirRewrites (m : StrMap)
  deriving DecidableEq, Repr

/-- The option a kind stands for. -/
def OptionKind.toOption : OptionKind → OptionFunc
  | .breakFailedCount n => BreakFailedCount n
  | .subdirRewrites m => SubdirRewrites m

/-- The argument of the last `BreakFailedCount` option of a list, if any. -/
def lastBreakFailedCount : List OptionKind → Option Int
  | [] => none
  | .breakFailedCount n :: rest =>
    match lastBreakFailedCount rest with
    | some k => some k
    | none => some n
  | .subdirRewrites _ :: rest => lastBreakFailedCount rest

/-- The argument of the last `SubdirRewrites` option of a list, if any. -/
def lastSubdirRewrites : List OptionKind → Option StrMap
  | [] => none
  | .subdirRewrites m :: rest =>
    match lastSubdirRewrites rest with
    | some k => some k
    | none => some m
  | .breakFailedCount _ :: rest => lastSubdirRewrites rest

/-- The checker a call is made on. -/
def Call.target : Call → Messager
  | .load m _ _ _ => m
  | .check m => m

/-- The loader's `NewMessagerMap(filter)` yields entries only under names the
filter it is given accepts. -/
def Env.HonoursFilter (env : Env) : Prop :=
  ∀ (filter : Filter) (n : String), n ∈ names (env.NewMessagerMap filter) →
    accepts filter n = true

/-! ## Maps: lemmas -/

theorem get_set_self (m : MessagerMap) (k : String) (v : Messager) :
    get (set m k v) k = some v := by
  simp [get, set]

theorem filter_set_self (m : MessagerMap) (k : String) (v : Messager) :
    (set m k v).filter (fun e => decide (e.1 = k)) = [(k, v)] := by
  simp only [set, List.filter_cons, decide_True, if_true, List.filter_filter]
  simp

theorem filter_set_other (m : MessagerMap) (k k' : String) (v : Messager) (hk : k' ≠ k) :
    (set m k v).filter (fun e => decide (e.1 = k')) = m.filter (fun e => decide (e.1 = k')) := by
  have hk' : ¬ k = k' := fun h => hk h.symm
  simp only [set, List.filter_cons, hk', decide_False, List.filter_filter]
  simp only [Bool.false_eq_true, if_false]
  apply List.filter_congr
  intro e _
  by_cases he : e.1 = k' <;> simp [he, hk]

theorem get_eq_head_filter (m : MessagerMap) (k : String) :
    get m k = ((m.filter (fun e => decide (e.1 = k))).head?).map Prod.snd := by
  simp [get, List.filter_head?]

theorem get_set_other (m : MessagerMap) (k k' : String) (v : Messager) (hk : k' ≠ k) :
    get (set m k v) k' = get m k' := by
  rw [get_eq_head_filter, get_eq_head_filter, filter_set_other m k k' v hk]

theorem mem_names_set (m : MessagerMap) (k : String) (v : Messager) (n : String) :
    n ∈ names (set m k v) ↔ n = k ∨ n ∈ names m := by
  simp only [names, set, List.map_cons, List.mem_cons, List.mem_map, List.mem_filter,
    decide_eq_true_eq]
  constructor
  · rintro (h | ⟨e, ⟨he, _⟩, rfl⟩)
    · exact Or.inl h
    · exact Or.inr ⟨e, he, rfl⟩
  · rintro (h | ⟨e, he, rfl⟩)
    · exact Or.inl h
    · by_cases hk : e.1 = k
      · exact Or.inl hk
      · exact Or.inr ⟨e, ⟨he, hk⟩, rfl⟩

theorem card_names_set_le (m : MessagerMap) (k : String) (v : Messager) :
    (names (set m k v)).toFinset.card ≤ (names m).toFinset.card + 1 := by
  have hsub : (names (set m k v)).toFinset ⊆ insert k (names m).toFinset := by
    intro n hn
    rw [List.mem_toFinset, mem_names_set] at hn
    rw [Finset.mem_insert, List.mem_toFinset]
    exact hn
  exact (Finset.card_le_card hsub).trans (Finset.card_insert_le _ _)

/-! ## The loops of `load` and `check` -/

theorem RangeOrder.pick_visiting (m : MessagerMap) (o : List (String × Messager))
    (hp : o.Perm m) : (RangeOrder.visiting m o hp).pick m = o := by
  simp [RangeOrder.visiting]

/-- One turn of the loop of `check` on an entry whose `Check` fails. -/
theorem checkLoop_cons_fail (env : Env) (k : Int) (name : String) (c : Messager)
    (rest : List (String × Messager)) (fc : Int) (hf : (env.Check c).isSome = true) :
    checkLoop env k ((name, c) :: rest) fc =
      if fc + 1 ≠ 0 ∧ fc + 1 ≥ k then ([Call.check c], fc + 1)
      else (Call.check c :: (checkLoop env k rest (fc + 1)).1,
        (checkLoop env k rest (fc + 1)).2) := by
  simp only [checkLoop, hf, if_true]

/-- One turn of the loop of `check` on an entry whose `Check` passes. -/
theorem checkLoop_cons_pass (env : Env) (k : Int) (name : String) (c : Messager)
    (rest : List (String × Messager)) (fc : Int) (hf : ¬ (env.Check c).isSome = true) :
    checkLoop env k ((name, c) :: rest) fc =
      if fc ≠ 0 ∧ fc ≥ k then ([Call.check c], fc)
      else (Call.check c :: (checkLoop env k rest fc).1, (checkLoop env k rest fc).2) := by
  simp only [checkLoop, hf, Bool.false_eq_true, if_false]

/-- While the threshold is out of reach, the loop checks every entry. -/
theorem checkLoop_all (env : Env) (k : Int) (o : List (String × Messager)) :
    ∀ fc : Int, fc + (o.countP (failsCheck env) : Int) < k →
      checkLoop env k o fc = (o.map checkCall, fc + (o.countP (failsCheck env) : Int)) := by
  induction o with
  | nil => intro fc _; simp [checkLoop]
  | cons e rest ih =>
    intro fc hlt
    obtain ⟨name, c⟩ := e
    by_cases hf : (env.Check c).isSome = true
    · have hc : failsCheck env (name, c) = true := hf
      rw [List.countP_cons_of_pos _ _ hc] at hlt ⊢
      push_cast at hlt ⊢
      have hnb : ¬ (fc + 1 ≠ 0 ∧ fc + 1 ≥ k) := by omega
      rw [checkLoop_cons_fail env k name c rest fc hf, if_neg hnb, ih (fc + 1) (by omega)]
      simp only [List.map_cons, checkCall, Prod.mk.injEq, true_and]
      omega
    · have hc : ¬ failsCheck env (name, c) = true := hf
      rw [List.countP_cons_of_neg _ _ hc] at hlt ⊢
      have hnb : ¬ (fc ≠ 0 ∧ fc ≥ k) := by omega
      rw [checkLoop_cons_pass env k name c rest fc hf, if_neg hnb, ih fc hlt]
      simp only [List.map_cons, checkCall]

/-- When the threshold is within reach, the loop stops right after the failure
that reaches it. -/
theorem checkLoop_break (env : Env) (k : Int) (o : List (String × Messager)) :
    ∀ fc : Int, 0 ≤ fc → fc < k → k ≤ fc + (o.countP (failsCheck env) : Int) →
      ∃ pre c post, o = pre ++ c :: post ∧ failsCheck env c = true ∧
        fc + (pre.countP (failsCheck env) : Int) + 1 = k ∧
        checkLoop env k o fc = ((pre ++ [c]).map checkCall, k) := by
  induction o with
  | nil => intro fc _ h1 h2; simp at h2; omega
  | cons e rest ih =>
    intro fc h0 h1 h2
    obtain ⟨name, c⟩ := e
    by_cases hf : (env.Check c).isSome = true
    · have hc : failsCheck env (name, c) = true := hf
      rw [List.countP_cons_of_pos _ _ hc] at h2
      push_cast at h2
      by_cases hb : fc + 1 ≥ k
      · have hbb : fc + 1 ≠ 0 ∧ fc + 1 ≥ k := ⟨by omega, hb⟩
        have hk : fc + 1 = k := by omega
        refine ⟨[], (name, c), rest, rfl, hc, ?_, ?_⟩
        · simp only [List.countP_nil, Nat.cast_zero]
          omega
        · rw [checkLoop_cons_fail env k name c rest fc hf, if_pos hbb, hk]
          rfl
      · obtain ⟨pre, d, post, ho, hd, hcnt, hrun⟩ := ih (fc + 1) (by omega) (by omega) (by omega)
        refine ⟨(name, c) :: pre, d, post, by rw [ho]; rfl, hd, ?_, ?_⟩
        · rw [List.countP_cons_of_pos _ _ hc]
          push_cast
          omega
        · have hnb : ¬ (fc + 1 ≠ 0 ∧ fc + 1 ≥ k) := fun h => hb h.2
          rw [checkLoop_cons_fail env k name c rest fc hf, if_neg hnb, hrun]
          rfl
    · have hc : ¬ failsCheck env (name, c) = true := hf
      rw [List.countP_cons_of_neg _ _ hc] at h2
      obtain ⟨pre, d, post, ho, hd, hcnt, hrun⟩ := ih fc h0 h1 h2
      refine ⟨(name, c) :: pre, d, post, by rw [ho]; rfl, hd, ?_, ?_⟩
      · rw [List.countP_cons_of_neg _ _ hc]
        exact hcnt
      · have hnb : ¬ (fc ≠ 0 ∧ fc ≥ k) := by omega
        rw [checkLoop_cons_pass env k name c rest fc hf, if_neg hnb, hrun]
        rfl

/-- When no `Load` fails, the loop loads every entry and returns no error. -/
theorem loadLoop_all (env : Env) (dir : String) (format : Format) (rw : StrMap)
    (o : List (String × Messager)) (hok : ∀ e ∈ o, failsLoad env dir format rw e = false) :
    loadLoop env dir format rw o = (o.map (loadCall dir format rw), none) := by
  induction o with
  | nil => rfl
  | cons e rest ih =>
    obtain ⟨name, c⟩ := e
    have h1 : env.Load c dir format rw = none := by
      have := hok (name, c) (List.mem_cons_self _ _)
      simpa [failsLoad] using this
    have h2 := ih (fun e he => hok e (List.mem_cons_of_mem _ he))
    simp [loadLoop, h1, h2, loadCall]

/-- When some `Load` fails, the loop stops at the first entry that fails and
returns its error wrapped with its name. -/
theorem loadLoop_fail (env : Env) (dir : String) (format : Format) (rw : StrMap)
    (o : List (String × Messager)) (hbad : ∃ e ∈ o, failsLoad env dir format rw e = true) :
    ∃ c cause, LoadsThroughFirstFailure env dir format rw o c cause
        (loadLoop env dir format rw o).1 ∧
      (loadLoop env dir format rw o).2 = some (Err.withMessage cause ("failed to load " ++ c.1)) := by
  induction o with
  | nil => obtain ⟨e, he, _⟩ := hbad; simp at he
  | cons e rest ih =>
    obtain ⟨name, c⟩ := e
    cases hl : env.Load c dir format rw with
    | some cause =>
      refine ⟨(name, c), cause, ⟨[], rest, rfl, by simp, hl, ?_, ?_⟩, ?_⟩ <;>
        simp [loadLoop, hl, loadCall]
    | none =>
      have hrest : ∃ e ∈ rest, failsLoad env dir format rw e = true := by
        obtain ⟨e, he, hf⟩ := hbad
        rcases List.mem_cons.mp he with rfl | he
        · simp [failsLoad, hl] at hf
        · exact ⟨e, he, hf⟩
      obtain ⟨d, cause, ⟨pre, post, ho, hpre, hd, hcalls, hlen⟩, hret⟩ := ih hrest
      refine ⟨d, cause, ⟨(name, c) :: pre, post, by rw [ho]; rfl, ?_, hd, ?_, ?_⟩, ?_⟩
      · intro e he
        rcases List.mem_cons.mp he with rfl | he
        · simp [failsLoad, hl]
        · exact hpre e he
      · simp only [loadLoop, hl, hcalls, List.cons_append, List.map_cons, loadCall]
      · simp only [loadLoop, hl, List.length_cons, hlen]
      · simp only [loadLoop, hl, hret]

theorem loadLoop_calls_isLoad (env : Env) (dir : String) (format : Format) (rw : StrMap)
    (o : List (String × Messager)) :
    ∀ c ∈ (loadLoop env dir format rw o).1, c.isLoad = true := by
  induction o with
  | nil => intro c hc; simp [loadLoop] at hc
  | cons e rest ih =>
    obtain ⟨name, m⟩ := e
    intro c hc
    cases hl : env.Load m dir format rw with
    | some cause =>
      simp only [loadLoop, hl, List.mem_singleton] at hc
      rw [hc]; rfl
    | none =>
      simp only [loadLoop, hl, List.mem_cons] at hc
      rcases hc with rfl | hc
      · rfl
      · exact ih c hc

theorem checkLoop_calls_isCheck (env : Env) (k : Int) (o : List (String × Messager)) :
    ∀ (fc : Int), ∀ c ∈ (checkLoop env k o fc).1, c.isCheck = true := by
  induction o with
  | nil => intro fc c hc; simp [checkLoop] at hc
  | cons e rest ih =>
    obtain ⟨name, m⟩ := e
    intro fc c hc
    have step : ∀ fc1 : Int, c ∈ (if fc1 ≠ 0 ∧ fc1 ≥ k then ([Call.check m], fc1)
        else (Call.check m :: (checkLoop env k rest fc1).1, (checkLoop env k rest fc1).2)).1 →
        c.isCheck = true := by
      intro fc1 h1
      split at h1
      · rw [List.mem_singleton.mp h1]; rfl
      · rcases List.mem_cons.mp h1 with rfl | h1
        · rfl
        · exact ih _ c h1
    by_cases hf : (env.Check m).isSome = true
    · rw [checkLoop_cons_fail env k name m rest fc hf] at hc
      exact step _ hc
    · rw [checkLoop_cons_pass env k name m rest fc hf] at hc
      exact step _ hc

/-! ## The methods of the hub -/

theorem Hub.load_calls (env : Env) (ρ : RangeOrder) (h : Hub) (dir : String) (format : Format)
    (rw : StrMap) :
    (h.load env ρ dir format rw).calls
      = (loadLoop env dir format rw (ρ.pick h.filteredCheckerMap)).1 := by
  unfold Hub.load
  split <;> rename_i heq <;> rw [heq]

theorem Hub.load_ret (env : Env) (ρ : RangeOrder) (h : Hub) (dir : String) (format : Format)
    (rw : StrMap) :
    (h.load env ρ dir format rw).ret
      = (loadLoop env dir format rw (ρ.pick h.filteredCheckerMap)).2 := by
  unfold Hub.load
  split <;> rename_i heq <;> rw [heq]

theorem Hub.load_hub (env : Env) (ρ : RangeOrder) (h : Hub) (dir : String) (format : Format)
    (rw : StrMap) :
    (h.load env ρ dir format rw).hub
      = if (h.load env ρ dir format rw).ret = none then h.SetMessagerMap h.filteredCheckerMap
        else h := by
  unfold Hub.load
  split <;> simp

theorem mem_pick (ρ : RangeOrder) (m : MessagerMap) (e : String × Messager) :
    e ∈ ρ.pick m ↔ e ∈ m :=
  (ρ.perm m).mem_iff

/-- When no `Load` of the subset fails, `load` loads every entry in visiting
order, returns nil and publishes the subset. -/
theorem Hub.load_ok (env : Env) (ρ : RangeOrder) (h : Hub) (dir : String) (format : Format)
    (rw : StrMap) (hok : ∀ e ∈ h.filteredCheckerMap, failsLoad env dir format rw e = false) :
    (h.load env ρ dir format rw).ret = none ∧
    (h.load env ρ dir format rw).calls = (ρ.pick h.filteredCheckerMap).map (loadCall dir format rw) ∧
    (h.load env ρ dir format rw).hub = h.SetMessagerMap h.filteredCheckerMap := by
  have hl := loadLoop_all env dir format rw (ρ.pick h.filteredCheckerMap)
    (fun e he => hok e ((mem_pick ρ _ e).mp he))
  have hr : (h.load env ρ dir format rw).ret = none := by rw [Hub.load_ret, hl]
  refine ⟨hr, by rw [Hub.load_calls, hl], ?_⟩
  rw [Hub.load_hub, if_pos hr]

/-- When some `Load` of the subset fails, `load` stops at the first failing
entry in visiting order, returns its wrapped error and leaves the hub as it
was. -/
theorem Hub.load_fail (env : Env) (ρ : RangeOrder) (h : Hub) (dir : String) (format : Format)
    (rw : StrMap) (hbad : ∃ e ∈ h.filteredCheckerMap, failsLoad env dir format rw e = true) :
    ∃ c cause,
      LoadsThroughFirstFailure env dir format rw (ρ.pick h.filteredCheckerMap) c cause
        (h.load env ρ dir format rw).calls ∧
      (h.load env ρ dir format rw).ret
        = some (Err.withMessage cause ("failed to load " ++ c.1)) ∧
      (h.load env ρ dir format rw).hub = h := by
  obtain ⟨e, he, hf⟩ := hbad
  obtain ⟨c, cause, hcalls, hret⟩ := loadLoop_fail env dir format rw
    (ρ.pick h.filteredCheckerMap) ⟨e, (mem_pick ρ _ e).mpr he, hf⟩
  have hr : (h.load env ρ dir format rw).ret
      = some (Err.withMessage cause ("failed to load " ++ c.1)) := by rw [Hub.load_ret, hret]
  refine ⟨c, cause, by rw [Hub.load_calls]; exact hcalls, hr, ?_⟩
  rw [Hub.load_hub, hr]
  simp

theorem Hub.check_hub (env : Env) (ρ : RangeOrder) (h : Hub) (k : Int) :
    (h.check env ρ k).hub = h := rfl

/-- `Run` when its `load` returns an error. -/
theorem Hub.Run_of_load_err (env : Env) (ρ₀ ρ₁ ρ₂ : RangeOrder) (h : Hub) (dir : String)
    (filter : Filter) (format : Format) (options : List OptionFunc) (err : Err)
    (hl : ((h.selected env ρ₀ filter).load env ρ₁ dir format
      (ParseOptions options).SubdirRewrites).ret = some err) :
    (h.Run env ρ₀ ρ₁ ρ₂ dir filter format options).hub
        = ((h.selected env ρ₀ filter).load env ρ₁ dir format
            (ParseOptions options).SubdirRewrites).hub ∧
    (h.Run env ρ₀ ρ₁ ρ₂ dir filter format options).calls
        = ((h.selected env ρ₀ filter).load env ρ₁ dir format
            (ParseOptions options).SubdirRewrites).calls ∧
    (h.Run env ρ₀ ρ₁ ρ₂ dir filter format options).ret = some err := by
  simp only [Hub.Run, hl]
  simp

/-- `Run` when its `load` returns nil. -/
theorem Hub.Run_of_load_nil (env : Env) (ρ₀ ρ₁ ρ₂ : RangeOrder) (h : Hub) (dir : String)
    (filter : Filter) (format : Format) (options : List OptionFunc)
    (hl : ((h.selected env ρ₀ filter).load env ρ₁ dir format
      (ParseOptions options).SubdirRewrites).ret = none) :
    (h.Run env ρ₀ ρ₁ ρ₂ dir filter format options).hub
        = ((h.selected env ρ₀ filter).load env ρ₁ dir format
            (ParseOptions options).SubdirRewrites).hub ∧
    (h.Run env ρ₀ ρ₁ ρ₂ dir filter format options).calls
        = ((h.selected env ρ₀ filter).load env ρ₁ dir format
            (ParseOptions options).SubdirRewrites).calls ++
          (((h.selected env ρ₀ filter).load env ρ₁ dir format
            (ParseOptions options).SubdirRewrites).hub.check env ρ₂
              (ParseOptions options).BreakFailedCount).calls ∧
    (h.Run env ρ₀ ρ₁ ρ₂ dir filter format options).ret
        = if (((h.selected env ρ₀ filter).load env ρ₁ dir format
            (ParseOptions options).SubdirRewrites).hub.check env ρ₂
              (ParseOptions options).BreakFailedCount).ret ≠ 0
          then some (Err.msg ("Check failed count: " ++ toString
            (((h.selected env ρ₀ filter).load env ρ₁ dir format
              (ParseOptions options).SubdirRewrites).hub.check env ρ₂
                (ParseOptions options).BreakFailedCount).ret))
          else none := by
  simp only [Hub.Run, hl]
  split <;> simp [Hub.check_hub]

theorem Hub.Run_hub (env : Env) (ρ₀ ρ₁ ρ₂ : RangeOrder) (h : Hub) (dir : String)
    (filter : Filter) (format : Format) (options : List OptionFunc) :
    (h.Run env ρ₀ ρ₁ ρ₂ dir filter format options).hub
      = ((h.selected env ρ₀ filter).load env ρ₁ dir format
          (ParseOptions options).SubdirRewrites).hub := by
  cases hl : ((h.selected env ρ₀ filter).load env ρ₁ dir format
      (ParseOptions options).SubdirRewrites).ret with
  | none => exact (Hub.Run_of_load_nil env ρ₀ ρ₁ ρ₂ h dir filter format options hl).1
  | some err => exact (Hub.Run_of_load_err env ρ₀ ρ₁ ρ₂ h dir filter format options err hl).1

theorem Hub.load_hub_filtered (env : Env) (ρ : RangeOrder) (h : Hub) (dir : String)
    (format : Format) (rw : StrMap) :
    (h.load env ρ dir format rw).hub.filteredCheckerMap = h.filteredCheckerMap := by
  rw [Hub.load_hub]
  split <;> rfl

theorem Hub.Run_hub_filtered (env : Env) (ρ₀ ρ₁ ρ₂ : RangeOrder) (h : Hub) (dir : String)
    (filter : Filter) (format : Format) (options : List OptionFunc) :
    (h.Run env ρ₀ ρ₁ ρ₂ dir filter format options).hub.filteredCheckerMap
      = h.newFiltered env ρ₀ filter := by
  rw [Hub.Run_hub, Hub.load_hub_filtered]
  rfl

/-- The names left by the loop of `Run` that writes the accepted registered
checkers over a starting map. -/
theorem mem_names_foldl (env : Env) (filter : Filter) (l : List (String × Messager)) :
    ∀ (init : MessagerMap) (n : String),
      n ∈ names (l.foldl
          (fun acc e => if accepts filter e.1 then set acc e.1 (env.messagerOf e.2) else acc)
          init)
        ↔ n ∈ names init ∨ ∃ e ∈ l, e.1 = n ∧ accepts filter e.1 = true := by
  induction l with
  | nil => intro init n; simp
  | cons e rest ih =>
    intro init n
    rw [List.foldl_cons, ih]
    by_cases ha : accepts filter e.1 = true
    · simp only [ha, if_true, mem_names_set, List.mem_cons, exists_eq_or_imp, and_true]
      constructor
      · rintro ((h1 | h1) | h1)
        · exact Or.inr (Or.inl h1.symm)
        · exact Or.inl h1
        · exact Or.inr (Or.inr h1)
      · rintro (h1 | h1 | h1)
        · exact Or.inl (Or.inr h1)
        · exact Or.inl (Or.inl h1.symm)
        · exact Or.inr h1
    · simp only [ha, Bool.false_eq_true, if_false, List.mem_cons, exists_eq_or_imp, and_false,
        false_or]

theorem mem_names_newFiltered (env : Env) (ρ : RangeOrder) (h : Hub) (filter : Filter)
    (n : String) :
    n ∈ names (h.newFiltered env ρ filter)
      ↔ n ∈ names (env.NewMessagerMap filter) ∨
        (n ∈ names h.checkerMap ∧ accepts filter n = true) := by
  unfold Hub.newFiltered
  rw [mem_names_foldl]
  apply or_congr Iff.rfl
  constructor
  · rintro ⟨e, he, rfl, ha⟩
    exact ⟨List.mem_map_of_mem _ ((mem_pick ρ _ e).mp he), ha⟩
  · rintro ⟨hn, ha⟩
    obtain ⟨e, he, rfl⟩ := List.mem_map.mp hn
    exact ⟨e, (mem_pick ρ _ e).mpr he, rfl, ha⟩

theorem one_le_ParseOptions (setters : List OptionFunc) :
    1 ≤ (ParseOptions setters).BreakFailedCount := by
  simp only [ParseOptions]
  generalize setters.foldl (fun opts setter => setter opts) newDefault = o
  split
  · exact le_refl 1
  · omega

/-- With every `Load` of the active subset succeeding, `Run` returns according
to the failed count of its `check`. -/
theorem Hub.Run_ret_of_load_ok (env : Env) (ρ₀ ρ₁ ρ₂ : RangeOrder) (h : Hub) (dir : String)
    (filter : Filter) (format : Format) (options : List OptionFunc)
    (hok : ∀ e ∈ h.newFiltered env ρ₀ filter,
      failsLoad env dir format (ParseOptions options).SubdirRewrites e = false) :
    (h.Run env ρ₀ ρ₁ ρ₂ dir filter format options).ret
      = if (((h.selected env ρ₀ filter).SetMessagerMap (h.newFiltered env ρ₀ filter)).check
            env ρ₂ (ParseOptions options).BreakFailedCount).ret ≠ 0
        then some (Err.msg ("Check failed count: " ++ toString
          (((h.selected env ρ₀ filter).SetMessagerMap (h.newFiltered env ρ₀ filter)).check
            env ρ₂ (ParseOptions options).BreakFailedCount).ret))
        else none := by
  obtain ⟨hr, _, hh⟩ := Hub.load_ok env ρ₁ (h.selected env ρ₀ filter) dir format
    (ParseOptions options).SubdirRewrites hok
  have := (Hub.Run_of_load_nil env ρ₀ ρ₁ ρ₂ h dir filter format options hr).2.2
  rw [hh] at this
  exact this

/-- When no `Check` of the subset fails and the threshold is at least 1,
`check` returns 0. -/
theorem Hub.check_ret_zero (env : Env) (ρ : RangeOrder) (h : Hub) (k : Int) (hk : 1 ≤ k)
    (hpass : ∀ e ∈ h.filteredCheckerMap, failsCheck env e = false) :
    (h.check env ρ k).ret = 0 := by
  have hz : (ρ.pick h.filteredCheckerMap).countP (failsCheck env) = 0 := by
    rw [List.countP_eq_zero]
    intro e he
    rw [hpass e ((mem_pick ρ _ e).mp he)]
    simp
  show (checkLoop env k (ρ.pick h.filteredCheckerMap) 0).2 = 0
  rw [checkLoop_all env k _ 0 (by rw [hz]; simp; omega), hz]
  simp

theorem Call.isCheck_of_isLoad (c : Call) (hc : c.isLoad = true) : ¬ c.isCheck = true := by
  cases c <;> simp_all [Call.isCheck, Call.isLoad]

theorem countP_pick (ρ : RangeOrder) (m : MessagerMap) (p : String × Messager → Bool) :
    (ρ.pick m).countP p = m.countP p :=
  (ρ.perm m).countP_eq p

/-- A threshold of 1 or less acts as the threshold 1. -/
theorem checkLoop_le_one (env : Env) (k : Int) (hk : k ≤ 1) (o : List (String × Messager)) :
    ∀ fc : Int, 0 ≤ fc → checkLoop env k o fc = checkLoop env 1 o fc := by
  induction o with
  | nil => intro fc _; rfl
  | cons e rest ih =>
    intro fc h0
    obtain ⟨name, c⟩ := e
    by_cases hf : (env.Check c).isSome = true
    · have hb : fc + 1 ≠ 0 ∧ fc + 1 ≥ k := ⟨by omega, by omega⟩
      have hb1 : fc + 1 ≠ 0 ∧ fc + 1 ≥ 1 := ⟨by omega, by omega⟩
      rw [checkLoop_cons_fail env k name c rest fc hf, checkLoop_cons_fail env 1 name c rest fc hf,
        if_pos hb, if_pos hb1]
    · rw [checkLoop_cons_pass env k name c rest fc hf, checkLoop_cons_pass env 1 name c rest fc hf,
        ih fc h0]
      by_cases hz : fc = 0
      · have hb : ¬ (fc ≠ 0 ∧ fc ≥ k) := fun h => h.1 hz
        have hb1 : ¬ (fc ≠ 0 ∧ fc ≥ 1) := fun h => h.1 hz
        rw [if_neg hb, if_neg hb1]
      · have hb : fc ≠ 0 ∧ fc ≥ k := ⟨hz, by omega⟩
        have hb1 : fc ≠ 0 ∧ fc ≥ 1 := ⟨hz, by omega⟩
        rw [if_pos hb, if_pos hb1]

/-- The failed count of the loop of `check` started at 0, for a threshold of
at least 1. -/
theorem checkLoop_ret (env : Env) (k : Int) (hk : 1 ≤ k) (o : List (String × Messager)) :
    (checkLoop env k o 0).2 = min k (o.countP (failsCheck env) : Int) := by
  by_cases hlt : (o.countP (failsCheck env) : Int) < k
  · rw [checkLoop_all env k o 0 (by omega), min_eq_right (by omega)]
    simp
  · obtain ⟨_, _, _, _, _, _, hrun⟩ :=
      checkLoop_break env k o 0 (le_refl 0) (by omega) (by omega)
    rw [hrun, min_eq_left (by omega)]

/-- The failed count `check` returns, for every threshold. -/
theorem Hub.check_ret (env : Env) (ρ : RangeOrder) (h : Hub) (k : Int) :
    (h.check env ρ k).ret
      = min (max k 1) (h.filteredCheckerMap.countP (failsCheck env) : Int) := by
  show (checkLoop env k (ρ.pick h.filteredCheckerMap) 0).2 = _
  rw [← countP_pick ρ]
  by_cases hk : 1 ≤ k
  · rw [checkLoop_ret env k hk, max_eq_left hk]
  · rw [checkLoop_le_one env k (by omega) _ 0 (le_refl 0), checkLoop_ret env 1 (le_refl 1),
      max_eq_right (by omega)]

theorem loadLoop_calls_mem (env : Env) (dir : String) (format : Format) (rw : StrMap)
    (o : List (String × Messager)) :
    ∀ c ∈ (loadLoop env dir format rw o).1, ∃ e ∈ o, c = loadCall dir format rw e := by
  induction o with
  | nil => intro c hc; simp [loadLoop] at hc
  | cons e rest ih =>
    obtain ⟨name, m⟩ := e
    intro c hc
    cases hl : env.Load m dir format rw with
    | some cause =>
      simp only [loadLoop, hl, List.mem_singleton] at hc
      exact ⟨(name, m), List.mem_cons_self _ _, hc⟩
    | none =>
      simp only [loadLoop, hl, List.mem_cons] at hc
      rcases hc with rfl | hc
      · exact ⟨(name, m), List.mem_cons_self _ _, rfl⟩
      · obtain ⟨e, he, hce⟩ := ih c hc
        exact ⟨e, List.mem_cons_of_mem _ he, hce⟩

theorem checkLoop_calls_mem (env : Env) (k : Int) (o : List (String × Messager)) :
    ∀ (fc : Int), ∀ c ∈ (checkLoop env k o fc).1, ∃ e ∈ o, c = checkCall e := by
  induction o with
  | nil => intro fc c hc; simp [checkLoop] at hc
  | cons e rest ih =>
    obtain ⟨name, m⟩ := e
    intro fc c hc
    have step : ∀ fc1 : Int, c ∈ (if fc1 ≠ 0 ∧ fc1 ≥ k then ([Call.check m], fc1)
        else (Call.check m :: (checkLoop env k rest fc1).1, (checkLoop env k rest fc1).2)).1 →
        ∃ e ∈ (name, m) :: rest, c = checkCall e := by
      intro fc1 h1
      split at h1
      · exact ⟨(name, m), List.mem_cons_self _ _, List.mem_singleton.mp h1⟩
      · rcases List.mem_cons.mp h1 with rfl | h1
        · exact ⟨(name, m), List.mem_cons_self _ _, rfl⟩
        · obtain ⟨e, he, hce⟩ := ih _ c h1
          exact ⟨e, List.mem_cons_of_mem _ he, hce⟩
    by_cases hf : (env.Check m).isSome = true
    · rw [checkLoop_cons_fail env k name m rest fc hf] at hc
      exact step _ hc
    · rw [checkLoop_cons_pass env k name m rest fc hf] at hc
      exact step _ hc

theorem Hub.load_hub_checkerMap (env : Env) (ρ : RangeOrder) (h : Hub) (dir : String)
    (format : Format) (rw : StrMap) :
    (h.load env ρ dir format rw).hub.checkerMap = h.checkerMap := by
  rw [Hub.load_hub]
  split <;> rfl

theorem ParseOptions_SubdirRewrites (setters : List OptionFunc) :
    (ParseOptions setters).SubdirRewrites
      = (setters.foldl (fun opts setter => setter opts) newDefault).SubdirRewrites := by
  simp only [ParseOptions]
  split <;> rfl

/-- The loop of `Run` leaves the entries under a name alone unless the name is
registered and accepted. -/
theorem filter_foldl_other (env : Env) (filter : Filter) (l : List (String × Messager)) :
    ∀ (init : MessagerMap) (n : String), ¬ (n ∈ names l ∧ accepts filter n = true) →
      (l.foldl
          (fun acc e => if accepts filter e.1 then set acc e.1 (env.messagerOf e.2) else acc)
          init).filter (fun e => decide (e.1 = n))
        = init.filter (fun e => decide (e.1 = n)) := by
  induction l with
  | nil => intro init n _; rfl
  | cons e rest ih =>
    intro init n hn
    have hrest : ¬ (n ∈ names rest ∧ accepts filter n = true) := by
      rintro ⟨h1, h2⟩
      exact hn ⟨List.mem_cons_of_mem _ h1, h2⟩
    rw [List.foldl_cons, ih _ n hrest]
    by_cases ha : accepts filter e.1 = true
    · have hne : n ≠ e.1 := by
        rintro rfl
        exact hn ⟨List.mem_cons_self _ _, ha⟩
      rw [if_pos ha, filter_set_other _ _ _ _ hne]
    · rw [if_neg ha]

/-- The loop of `Run` leaves, under a registered and accepted name, the one
entry holding the `Messager()` value of the registered checker. -/
theorem filter_foldl_mem (env : Env) (filter : Filter) (l : List (String × Messager)) :
    ∀ (init : MessagerMap) (n : String) (c : Messager), (names l).Nodup → (n, c) ∈ l →
      accepts filter n = true →
      (l.foldl
          (fun acc e => if accepts filter e.1 then set acc e.1 (env.messagerOf e.2) else acc)
          init).filter (fun e => decide (e.1 = n))
        = [(n, env.messagerOf c)] := by
  induction l with
  | nil => intro init n c _ hmem _; simp at hmem
  | cons e rest ih =>
    intro init n c hnd hmem ha
    have hnd2 : e.1 ∉ names rest ∧ (names rest).Nodup := by
      simpa [names] using hnd
    rw [List.foldl_cons]
    rcases List.mem_cons.mp hmem with heq | hmem
    · subst heq
      have hnot : ¬ (n ∈ names rest ∧ accepts filter n = true) := fun h => hnd2.1 h.1
      rw [filter_foldl_other env filter rest _ n hnot, if_pos ha, filter_set_self]
    · exact ih _ n c hnd2.2 hmem ha

theorem names_pick_nodup (ρ : RangeOrder) (m : MessagerMap) (h : (names m).Nodup) :
    (names (ρ.pick m)).Nodup :=
  ((ρ.perm m).map Prod.fst).nodup_iff.mpr h

theorem Hub.Run_hub_checkerMap (env : Env) (ρ₀ ρ₁ ρ₂ : RangeOrder) (h : Hub) (dir : String)
    (filter : Filter) (format : Format) (options : List OptionFunc) :
    (h.Run env ρ₀ ρ₁ ρ₂ dir filter format options).hub.checkerMap = h.checkerMap := by
  rw [Hub.Run_hub, Hub.load_hub_checkerMap]
  rfl

theorem Hub.newFiltered_congr (env : Env) (ρ : RangeOrder) (h g : Hub) (filter : Filter)
    (hc : h.checkerMap = g.checkerMap) :
    h.newFiltered env ρ filter = g.newFiltered env ρ filter := by
  unfold Hub.newFiltered
  rw [hc]

/-- If a list that starts with `Load` calls is cut at a call that is not a
`Load` call, the `Load` calls all lie before the cut. -/
theorem append_cut (L C pre post : List Call) (x : Call) (hL : ∀ c ∈ L, c.isLoad = true)
    (hx : ¬ x.isLoad = true) (heq : L ++ C = pre ++ x :: post) :
    ∃ mid, pre = L ++ mid ∧ C = mid ++ x :: post := by
  induction L generalizing pre with
  | nil => exact ⟨pre, rfl, heq⟩
  | cons a L1 ih =>
    cases pre with
    | nil =>
      simp only [List.cons_append, List.nil_append, List.cons.injEq] at heq
      exact absurd (heq.1 ▸ hL a (List.mem_cons_self _ _)) hx
    | cons b pre1 =>
      simp only [List.cons_append, List.cons.injEq] at heq
      obtain ⟨mid, h1, h2⟩ := ih pre1 (fun c hc => hL c (List.mem_cons_of_mem _ hc)) heq.2
      exact ⟨mid, by rw [heq.1, h1]; rfl, h2⟩

/-- When `load` returns nil, no `Load` of the subset failed. -/
theorem Hub.load_nil_all_ok (env : Env) (ρ : RangeOrder) (h : Hub) (dir : String)
    (format : Format) (rw : StrMap) (hr : (h.load env ρ dir format rw).ret = none) :
    ∀ e ∈ h.filteredCheckerMap, failsLoad env dir format rw e = false := by
  intro e he
  by_contra hne
  have hbad : failsLoad env dir format rw e = true := by
    cases hf : failsLoad env dir format rw e with
    | true => rfl
    | false => exact absurd hf hne
  obtain ⟨_, _, _, hret, _⟩ := Hub.load_fail env ρ h dir format rw ⟨e, he, hbad⟩
  rw [hr] at hret
  exact Option.some_ne_none _ hret.symm

/-- Every call of a `Run` is made on the checker of an entry of the active
subset. -/
theorem Hub.Run_calls_target (env : Env) (ρ₀ ρ₁ ρ₂ : RangeOrder) (h : Hub) (dir : String)
    (filter : Filter) (format : Format) (options : List OptionFunc) :
    ∀ c ∈ (h.Run env ρ₀ ρ₁ ρ₂ dir filter format options).calls,
      ∃ e ∈ h.newFiltered env ρ₀ filter, c.target = e.2 := by
  intro c hc
  have hloadcalls : ∀ x ∈ ((h.selected env ρ₀ filter).load env ρ₁ dir format
      (ParseOptions options).SubdirRewrites).calls,
      ∃ e ∈ h.newFiltered env ρ₀ filter, x.target = e.2 := by
    intro x hx
    rw [Hub.load_calls] at hx
    obtain ⟨e, he, hxe⟩ := loadLoop_calls_mem env dir format _ _ x hx
    exact ⟨e, (mem_pick ρ₁ _ e).mp he, by rw [hxe]; rfl⟩
  cases hl : ((h.selected env ρ₀ filter).load env ρ₁ dir format
      (ParseOptions options).SubdirRewrites).ret with
  | some err =>
    rw [(Hub.Run_of_load_err env ρ₀ ρ₁ ρ₂ h dir filter format options err hl).2.1] at hc
    exact hloadcalls c hc
  | none =>
    rw [(Hub.Run_of_load_nil env ρ₀ ρ₁ ρ₂ h dir filter format options hl).2.1] at hc
    rcases List.mem_append.mp hc with hc | hc
    · exact hloadcalls c hc
    · obtain ⟨e, he, hce⟩ := checkLoop_calls_mem env _ _ 0 c hc
      have he2 := (mem_pick ρ₂ _ e).mp he
      rw [Hub.load_hub_filtered] at he2
      exact ⟨e, he2, by rw [hce]; rfl⟩

theorem demoEnv_honoursFilter : demoEnv.HonoursFilter := by
  intro filter n hn
  by_cases hx : accepts filter "X" = true
  · have hnew : demoEnv.NewMessagerMap filter = [("X", 8)] := by
      show (if accepts filter "X" = true then [("X", 8)] else []) = _
      rw [if_pos hx]
    rw [hnew] at hn
    have : n = "X" := by simpa [names] using hn
    rw [this]; exact hx
  · have hnew : demoEnv.NewMessagerMap filter = [] := by
      show (if accepts filter "X" = true then [("X", 8)] else []) = _
      rw [if_neg hx]
    rw [hnew] at hn
    simp [names] at hn

/-! ## Options: theorems -/

/-- Applying a list of the package's options to any starting struct leaves in
each field the argument of the last option of that kind, or the old value. -/
theorem foldl_toOption (l : List OptionKind) (o : Options) :
    (l.map OptionKind.toOption).foldl (fun opts setter => setter opts) o =
      { BreakFailedCount := (lastBreakFailedCount l).getD o.BreakFailedCount,
        SubdirRewrites := (lastSubdirRewrites l).getD o.SubdirRewrites } := by
  induction l generalizing o with
  | nil => rfl
  | cons k rest ih =>
    cases k with
    | breakFailedCount n =>
      simp only [List.map_cons, List.foldl_cons, ih, OptionKind.toOption, BreakFailedCount,
        lastBreakFailedCount, lastSubdirRewrites]
      cases lastBreakFailedCount rest <;> rfl
    | subdirRewrites m =>
      simp only [List.map_cons, List.foldl_cons, ih, OptionKind.toOption, SubdirRewrites,
        lastBreakFailedCount, lastSubdirRewrites]
      cases lastSubdirRewrites rest <;> rfl

/-- C5: `ParseOptions()` yields `BreakFailedCount = 1`, and
`ParseOptions(BreakFailedCount(n))` yields 1 when `n <= 1` and `n` when
`n > 1`; so 0, 1 and -4 give 1 and 3 gives 3. -/
theorem ParseOptions_BreakFailedCount :
    (ParseOptions []).BreakFailedCount = 1 ∧
    (∀ n : Int, (ParseOptions [BreakFailedCount n]).BreakFailedCount = if n ≤ 1 then 1 else n) ∧
    (ParseOptions [BreakFailedCount 0]).BreakFailedCount = 1 ∧
    (ParseOptions [BreakFailedCount 1]).BreakFailedCount = 1 ∧
    (ParseOptions [BreakFailedCount 3]).BreakFailedCount = 3 ∧
    (ParseOptions [BreakFailedCount (-4)]).BreakFailedCount = 1 := by
  have small : ∀ n : Int, n ≤ 1 → (ParseOptions [BreakFailedCount n]).BreakFailedCount = 1 := by
    intro n hn
    simp [ParseOptions, BreakFailedCount, newDefault, hn]
  have large : ∀ n : Int, 1 < n → (ParseOptions [BreakFailedCount n]).BreakFailedCount = n := by
    intro n hn
    simp [ParseOptions, BreakFailedCount, newDefault, not_le.mpr hn]
  refine ⟨?_, ?_, small 0 (by decide), small 1 (by decide), large 3 (by decide),
    small (-4) (by decide)⟩
  · simp [ParseOptions, newDefault]
  · intro n
    by_cases hn : n ≤ 1
    · rw [if_pos hn, small n hn]
    · rw [if_neg hn, large n (by omega)]

/-- C6: whatever setters are passed, also caller-defined ones and repeated
`BreakFailedCount` options, the parsed `BreakFailedCount` is at least 1. -/
theorem ParseOptions_BreakFailedCount_ge_one (setters : List OptionFunc) :
    1 ≤ (ParseOptions setters).BreakFailedCount :=
  one_le_ParseOptions setters

/-- C7: `ParseOptions` folds the setters left to right over the default
(`BreakFailedCount = 1`, empty `SubdirRewrites`) and normalises afterwards;
for a list of `BreakFailedCount` and `SubdirRewrites` options the result holds
`max(1, n)` for the last `BreakFailedCount(n)` (1 without one) and the map of
the last `SubdirRewrites` (empty without one); each option leaves the other
field alone. -/
theorem ParseOptions_last_wins :
    newDefault = { BreakFailedCount := 1, SubdirRewrites := [] } ∧
    (∀ setters : List OptionFunc,
      ParseOptions setters =
        { setters.foldl (fun opts setter => setter opts) newDefault with
          BreakFailedCount :=
            max 1 (setters.foldl (fun opts setter => setter opts) newDefault).BreakFailedCount }) ∧
    (∀ l : List OptionKind,
      ParseOptions (l.map OptionKind.toOption) =
        { BreakFailedCount := max 1 ((lastBreakFailedCount l).getD 1),
          SubdirRewrites := (lastSubdirRewrites l).getD [] }) ∧
    (∀ (n : Int) (o : Options), (BreakFailedCount n o).SubdirRewrites = o.SubdirRewrites) ∧
    (∀ (m : StrMap) (o : Options),
      (SubdirRewrites m o).BreakFailedCount = o.BreakFailedCount) := by
  have norm : ∀ setters : List OptionFunc,
      ParseOptions setters =
        { setters.foldl (fun opts setter => setter opts) newDefault with
          BreakFailedCount :=
            max 1 (setters.foldl (fun opts setter => setter opts) newDefault).BreakFailedCount } := by
    intro setters
    simp only [ParseOptions]
    generalize setters.foldl (fun opts setter => setter opts) newDefault = o
    split
    · next h => rw [max_eq_left h]
    · next h => rw [max_eq_right (by omega)]
  refine ⟨rfl, norm, ?_, fun _ _ => rfl, fun _ _ => rfl⟩
  intro l
  rw [norm, foldl_toOption]
  rfl

/-! ## Register -/

/-- C8: registering `c1` and then `c2` under one name `n` leaves exactly one
entry for `n`, holding `c2` (and `c1` in the other order); entries under other
names are as before, and one `Register` adds at most one distinct name. -/
theorem Register_last_write_wins (env : Env) (h : Hub) (c1 c2 : Messager) (n : String)
    (h1 : env.Name (env.messagerOf c1) = n) (h2 : env.Name (env.messagerOf c2) = n) :
    (((h.Register env c1).1.Register env c2).1.checkerMap.filter (fun e => decide (e.1 = n))
        = [(n, c2)] ∧
      get ((h.Register env c1).1.Register env c2).1.checkerMap n = some c2) ∧
    (((h.Register env c2).1.Register env c1).1.checkerMap.filter (fun e => decide (e.1 = n))
        = [(n, c1)] ∧
      get ((h.Register env c2).1.Register env c1).1.checkerMap n = some c1) ∧
    (∀ k : String, k ≠ n →
      ((h.Register env c1).1.Register env c2).1.checkerMap.filter (fun e => decide (e.1 = k))
          = h.checkerMap.filter (fun e => decide (e.1 = k)) ∧
        get ((h.Register env c1).1.Register env c2).1.checkerMap k = get h.checkerMap k) ∧
    (∀ (g : Hub) (c : Messager),
      (names (g.Register env c).1.checkerMap).toFinset.card
        ≤ (names g.checkerMap).toFinset.card + 1) := by
  refine ⟨?_, ?_, ?_, ?_⟩
  · simp only [Hub.Register, h1, h2]
    exact ⟨filter_set_self _ _ _, get_set_self _ _ _⟩
  · simp only [Hub.Register, h1, h2]
    exact ⟨filter_set_self _ _ _, get_set_self _ _ _⟩
  · intro k hk
    simp only [Hub.Register, h1, h2]
    exact ⟨by rw [filter_set_other _ _ _ _ hk, filter_set_other _ _ _ _ hk],
      by rw [get_set_other _ _ _ _ hk, get_set_other _ _ _ _ hk]⟩
  · intro g c
    exact card_names_set_le _ _ _

/-- C8 at a concrete input: references 1 and 11 are both named `"A"`. -/
theorem Register_last_write_wins_witness :
    get ((Hub.Register demoEnv ⟨[], [("B", 2)], []⟩ 1).1.Register demoEnv 11).1.checkerMap "A"
      = some 11 :=
  (Register_last_write_wins demoEnv ⟨[], [("B", 2)], []⟩ 1 11 "A" rfl rfl).1.2

/-! ## The Check phase -/

/-- C1: for a threshold `k >= 1` and any visiting order of the active subset,
if at least `k` checkers of the subset fail `Check` then `check(k)` calls
`Check` on exactly the entries up to and including the `k`-th failing one, and
if fewer than `k` fail it calls `Check` on every entry. -/
theorem check_stops_at_kth_failure (env : Env) (ρ : RangeOrder) (h : Hub) (k : Int)
    (hk : 1 ≤ k) :
    (k ≤ (h.filteredCheckerMap.countP (failsCheck env) : Int) →
      ChecksThroughKthFailure env (ρ.pick h.filteredCheckerMap) k (h.check env ρ k).calls) ∧
    ((h.filteredCheckerMap.countP (failsCheck env) : Int) < k →
      (h.check env ρ k).calls = (ρ.pick h.filteredCheckerMap).map checkCall) := by
  constructor
  · intro hge
    rw [← countP_pick ρ] at hge
    obtain ⟨pre, c, post, ho, hc, hcnt, hrun⟩ :=
      checkLoop_break env k (ρ.pick h.filteredCheckerMap) 0 (le_refl 0) (by omega) (by omega)
    refine ⟨pre, c, post, ho, hc, by omega, ?_⟩
    show (checkLoop env k (ρ.pick h.filteredCheckerMap) 0).1 = _
    rw [hrun]
  · intro hlt
    rw [← countP_pick ρ] at hlt
    show (checkLoop env k (ρ.pick h.filteredCheckerMap) 0).1 = _
    rw [checkLoop_all env k (ρ.pick h.filteredCheckerMap) 0 (by omega)]

/-- C1 at a concrete input: four checkers visited in reverse, the first and
third of the stored order failing, threshold 2. -/
theorem check_stops_at_kth_failure_witness :
    ChecksThroughKthFailure demoEnv [("D", 4), ("C", 3), ("B", 2), ("A", 1)] 2
      (Hub.check demoEnv RangeOrder.reversed
        ⟨[], [], [("A", 1), ("B", 2), ("C", 3), ("D", 4)]⟩ 2).calls :=
  (check_stops_at_kth_failure demoEnv RangeOrder.reversed
    ⟨[], [], [("A", 1), ("B", 2), ("C", 3), ("D", 4)]⟩ 2 (by decide)).1 (by decide)

/-! ## The Load phase -/

/-- C9: `load` calls `Load` on the entries of the active subset one by one in
visiting order and stops at the first failure, so the number of `Load` calls is
the position of the first failing entry, or the size of the subset when none
fails; the `Load` calls of a `Run` are those of its `load`. -/
theorem load_stops_at_first_failure (env : Env) (ρ : RangeOrder) (h : Hub) (dir : String)
    (format : Format) (rw : StrMap) :
    ((∃ e ∈ h.filteredCheckerMap, failsLoad env dir format rw e = true) →
      ∃ c cause, LoadsThroughFirstFailure env dir format rw (ρ.pick h.filteredCheckerMap) c cause
        (h.load env ρ dir format rw).calls) ∧
    ((∀ e ∈ h.filteredCheckerMap, failsLoad env dir format rw e = false) →
      (h.load env ρ dir format rw).calls
          = (ρ.pick h.filteredCheckerMap).map (loadCall dir format rw) ∧
        (h.load env ρ dir format rw).calls.length = h.filteredCheckerMap.length) ∧
    (∀ (ρ₀ ρ₂ : RangeOrder) (g : Hub) (filter : Filter) (options : List OptionFunc),
      (g.Run env ρ₀ ρ ρ₂ dir filter format options).calls.filter Call.isLoad
        = ((g.selected env ρ₀ filter).load env ρ dir format
            (ParseOptions options).SubdirRewrites).calls) := by
  refine ⟨?_, ?_, ?_⟩
  · intro hbad
    obtain ⟨c, cause, hc, _, _⟩ := Hub.load_fail env ρ h dir format rw hbad
    exact ⟨c, cause, hc⟩
  · intro hok
    obtain ⟨_, hc, _⟩ := Hub.load_ok env ρ h dir format rw hok
    refine ⟨hc, ?_⟩
    rw [hc, List.length_map]
    exact (ρ.perm _).length_eq
  · intro ρ₀ ρ₂ g filter options
    have hload : ∀ c ∈ ((g.selected env ρ₀ filter).load env ρ dir format
        (ParseOptions options).SubdirRewrites).calls, Call.isLoad c = true := by
      rw [Hub.load_calls]
      exact loadLoop_calls_isLoad env dir format _ _
    cases hl : ((g.selected env ρ₀ filter).load env ρ dir format
        (ParseOptions options).SubdirRewrites).ret with
    | some err =>
      rw [(Hub.Run_of_load_err env ρ₀ ρ ρ₂ g dir filter format options err hl).2.1]
      exact List.filter_eq_self.mpr hload
    | none =>
      rw [(Hub.Run_of_load_nil env ρ₀ ρ ρ₂ g dir filter format options hl).2.1,
        List.filter_append, List.filter_eq_self.mpr hload]
      have hcheck : ∀ c ∈ (((g.selected env ρ₀ filter).load env ρ dir format
          (ParseOptions options).SubdirRewrites).hub.check env ρ₂
            (ParseOptions options).BreakFailedCount).calls, ¬ Call.isLoad c = true := by
        intro c hc
        have := checkLoop_calls_isCheck env _ _ 0 c hc
        cases c <;> simp_all [Call.isCheck, Call.isLoad]
      rw [List.filter_eq_nil_iff.mpr hcheck, List.append_nil]

/-- C9 at a concrete input: of three checkers the second, reference 5, fails
to load. -/
theorem load_stops_at_first_failure_witness :
    ∃ c cause, LoadsThroughFirstFailure demoEnv "dir" 0 [] [("A", 1), ("E", 5), ("C", 3)] c cause
      (Hub.load demoEnv RangeOrder.stored ⟨[], [], [("A", 1), ("E", 5), ("C", 3)]⟩
        "dir" 0 []).calls :=
  (load_stops_at_first_failure demoEnv RangeOrder.stored
    ⟨[], [], [("A", 1), ("E", 5), ("C", 3)]⟩ "dir" 0 []).1 ⟨("E", 5), by decide, by decide⟩

/-! ## Run -/

/-- C2: if the `Load` of some checker of the active subset fails, `Run` makes
no `Check` call and returns an error that wraps the cause of the checker whose
`Load` failed under the message `failed to load <name>`. -/
theorem Run_load_failure (env : Env) (ρ₀ ρ₁ ρ₂ : RangeOrder) (h : Hub) (dir : String)
    (filter : Filter) (format : Format) (options : List OptionFunc)
    (hbad : ∃ e ∈ h.newFiltered env ρ₀ filter,
      failsLoad env dir format (ParseOptions options).SubdirRewrites e = true) :
    ∃ c cause,
      c ∈ h.newFiltered env ρ₀ filter ∧
      LoadsThroughFirstFailure env dir format (ParseOptions options).SubdirRewrites
        (ρ₁.pick (h.newFiltered env ρ₀ filter)) c cause
        (h.Run env ρ₀ ρ₁ ρ₂ dir filter format options).calls ∧
      (h.Run env ρ₀ ρ₁ ρ₂ dir filter format options).ret
        = some (Err.withMessage cause ("failed to load " ++ c.1)) ∧
      (Err.withMessage cause ("failed to load " ++ c.1)).Error
        = "failed to load " ++ c.1 ++ ": " ++ cause.Error ∧
      (Err.withMessage cause ("failed to load " ++ c.1)).Unwrap = some cause ∧
      (h.Run env ρ₀ ρ₁ ρ₂ dir filter format options).calls.filter Call.isCheck = [] := by
  obtain ⟨c, cause, hcalls, hret, _⟩ := Hub.load_fail env ρ₁ (h.selected env ρ₀ filter) dir format
    (ParseOptions options).SubdirRewrites hbad
  obtain ⟨_, hrc, hrr⟩ := Hub.Run_of_load_err env ρ₀ ρ₁ ρ₂ h dir filter format options _ hret
  refine ⟨c, cause, ?_, ?_, hrr, rfl, rfl, ?_⟩
  · obtain ⟨pre, post, ho, _⟩ := hcalls
    have hc : c ∈ ρ₁.pick (h.selected env ρ₀ filter).filteredCheckerMap := by
      rw [ho]; simp
    exact (mem_pick ρ₁ _ c).mp hc
  · rw [hrc]; exact hcalls
  · rw [hrc, List.filter_eq_nil_iff, Hub.load_calls]
    intro x hx
    exact Call.isCheck_of_isLoad x (loadLoop_calls_isLoad env dir format _ _ x hx)

/-- C2 at a concrete input: `A` and `E` registered, `E` (reference 5) fails to
load. -/
theorem Run_load_failure_witness :
    ∃ c cause,
      c ∈ Hub.newFiltered demoEnv RangeOrder.stored ⟨[], [("A", 1), ("E", 5)], []⟩ none ∧
      LoadsThroughFirstFailure demoEnv "dir" 0 (ParseOptions []).SubdirRewrites
        (RangeOrder.stored.pick
          (Hub.newFiltered demoEnv RangeOrder.stored ⟨[], [("A", 1), ("E", 5)], []⟩ none))
        c cause
        (Hub.Run demoEnv RangeOrder.stored RangeOrder.stored RangeOrder.stored
          ⟨[], [("A", 1), ("E", 5)], []⟩ "dir" none 0 []).calls ∧
      (Hub.Run demoEnv RangeOrder.stored RangeOrder.stored RangeOrder.stored
          ⟨[], [("A", 1), ("E", 5)], []⟩ "dir" none 0 []).ret
        = some (Err.withMessage cause ("failed to load " ++ c.1)) ∧
      (Err.withMessage cause ("failed to load " ++ c.1)).Error
        = "failed to load " ++ c.1 ++ ": " ++ cause.Error ∧
      (Err.withMessage cause ("failed to load " ++ c.1)).Unwrap = some cause ∧
      (Hub.Run demoEnv RangeOrder.stored RangeOrder.stored RangeOrder.stored
          ⟨[], [("A", 1), ("E", 5)], []⟩ "dir" none 0 []).calls.filter Call.isCheck = [] :=
  Run_load_failure demoEnv RangeOrder.stored RangeOrder.stored RangeOrder.stored
    ⟨[], [("A", 1), ("E", 5)], []⟩ "dir" none 0 [] ⟨("E", 5), by decide, by decide⟩

/-- C3: when every `Load` of the active subset succeeds, `Run` returns nil
exactly when the failed count returned by `check` is 0, and otherwise the
error `Check failed count: <n>` for that count `n`; so with `A` and `B`
registered, no filter, and every `Load` and `Check` succeeding, `Run` returns
nil. -/
theorem Run_nil_iff_failed_count_zero (env : Env) (ρ₀ ρ₁ ρ₂ : RangeOrder) (h : Hub)
    (dir : String) (filter : Filter) (format : Format) (options : List OptionFunc)
    (hok : ∀ e ∈ h.newFiltered env ρ₀ filter,
      failsLoad env dir format (ParseOptions options).SubdirRewrites e = false) :
    ((h.Run env ρ₀ ρ₁ ρ₂ dir filter format options).ret = none ↔
      (((h.selected env ρ₀ filter).SetMessagerMap (h.newFiltered env ρ₀ filter)).check
        env ρ₂ (ParseOptions options).BreakFailedCount).ret = 0) ∧
    ((((h.selected env ρ₀ filter).SetMessagerMap (h.newFiltered env ρ₀ filter)).check
        env ρ₂ (ParseOptions options).BreakFailedCount).ret ≠ 0 →
      (h.Run env ρ₀ ρ₁ ρ₂ dir filter format options).ret
        = some (Err.msg ("Check failed count: " ++ toString
          (((h.selected env ρ₀ filter).SetMessagerMap (h.newFiltered env ρ₀ filter)).check
            env ρ₂ (ParseOptions options).BreakFailedCount).ret))) ∧
    ((∀ e ∈ h.newFiltered env ρ₀ filter, failsCheck env e = false) →
      (h.Run env ρ₀ ρ₁ ρ₂ dir filter format options).ret = none) ∧
    (∀ (g : Hub) (A B : Messager),
      (∀ e ∈ Hub.newFiltered env ρ₀ ((g.Register env A).1.Register env B).1 none,
        failsLoad env dir format (ParseOptions options).SubdirRewrites e = false ∧
          failsCheck env e = false) →
      (Hub.Run env ρ₀ ρ₁ ρ₂ ((g.Register env A).1.Register env B).1 dir none format
        options).ret = none) := by
  have hret := Hub.Run_ret_of_load_ok env ρ₀ ρ₁ ρ₂ h dir filter format options hok
  refine ⟨?_, ?_, ?_, ?_⟩
  · rw [hret]
    constructor
    · intro hn
      by_contra hne
      rw [if_pos hne] at hn
      exact Option.some_ne_none _ hn
    · intro hz
      rw [if_neg (not_not.mpr hz)]
  · intro hne
    rw [hret, if_pos hne]
  · intro hpass
    rw [hret, if_neg]
    exact not_not.mpr (Hub.check_ret_zero env ρ₂ _ _ (one_le_ParseOptions options) hpass)
  · intro g A B hall
    rw [Hub.Run_ret_of_load_ok env ρ₀ ρ₁ ρ₂ _ dir none format options (fun e he => (hall e he).1),
      if_neg]
    exact not_not.mpr (Hub.check_ret_zero env ρ₂ _ _ (one_le_ParseOptions options)
      (fun e he => (hall e he).2))

/-- C3 at a concrete input: `B` and `D` registered on an empty hub, the loader
adds `X`; all three load and pass, and `Run` returns nil. -/
theorem Run_nil_iff_failed_count_zero_witness :
    (Hub.Run demoEnv RangeOrder.stored RangeOrder.reversed RangeOrder.stored
      ((Hub.Register demoEnv (Hub.Register demoEnv ⟨[], [], []⟩ 2).1 4).1)
      "dir" none 0 []).ret = none :=
  (Run_nil_iff_failed_count_zero demoEnv RangeOrder.stored RangeOrder.reversed
    RangeOrder.stored ((Hub.Register demoEnv (Hub.Register demoEnv ⟨[], [], []⟩ 2).1 4).1)
    "dir" none 0 [] (by decide)).2.2.1 (by decide)

/-- C10: when every `Load` of the active subset succeeds, `load` hands the
active subset to `SetMessagerMap`, so the published map is the subset when the
Check phase starts and when `Run` ends; when some `Load` fails, the published
map stays as it was before the `Run`. -/
theorem load_publishes_active_subset (env : Env) (ρ₀ ρ₁ ρ₂ : RangeOrder) (h : Hub)
    (dir : String) (filter : Filter) (format : Format) (options : List OptionFunc) :
    ((∀ e ∈ h.newFiltered env ρ₀ filter,
        failsLoad env dir format (ParseOptions options).SubdirRewrites e = false) →
      ((h.selected env ρ₀ filter).load env ρ₁ dir format
          (ParseOptions options).SubdirRewrites).hub.messagerMap = h.newFiltered env ρ₀ filter ∧
        (h.Run env ρ₀ ρ₁ ρ₂ dir filter format options).hub.messagerMap
          = h.newFiltered env ρ₀ filter ∧
        (h.Run env ρ₀ ρ₁ ρ₂ dir filter format options).hub.messagerMap
          = (h.Run env ρ₀ ρ₁ ρ₂ dir filter format options).hub.filteredCheckerMap) ∧
    ((∃ e ∈ h.newFiltered env ρ₀ filter,
        failsLoad env dir format (ParseOptions options).SubdirRewrites e = true) →
      (h.Run env ρ₀ ρ₁ ρ₂ dir filter format options).hub.messagerMap = h.messagerMap) ∧
    (∀ (g : Hub) (rw : StrMap),
      ((∀ e ∈ g.filteredCheckerMap, failsLoad env dir format rw e = false) →
        (g.load env ρ₁ dir format rw).hub.messagerMap = g.filteredCheckerMap) ∧
      ((∃ e ∈ g.filteredCheckerMap, failsLoad env dir format rw e = true) →
        (g.load env ρ₁ dir format rw).hub.messagerMap = g.messagerMap)) := by
  refine ⟨?_, ?_, ?_⟩
  · intro hok
    obtain ⟨_, _, hh⟩ := Hub.load_ok env ρ₁ (h.selected env ρ₀ filter) dir format
      (ParseOptions options).SubdirRewrites hok
    refine ⟨by rw [hh]; rfl, by rw [Hub.Run_hub, hh]; rfl, ?_⟩
    rw [Hub.Run_hub_filtered, Hub.Run_hub, hh]
    rfl
  · intro hbad
    obtain ⟨_, _, _, _, hh⟩ := Hub.load_fail env ρ₁ (h.selected env ρ₀ filter) dir format
      (ParseOptions options).SubdirRewrites hbad
    rw [Hub.Run_hub, hh]
    rfl
  · intro g rw
    constructor
    · intro hok
      rw [(Hub.load_ok env ρ₁ g dir format rw hok).2.2]
      rfl
    · intro hbad
      obtain ⟨_, _, _, _, hh⟩ := Hub.load_fail env ρ₁ g dir format rw hbad
      rw [hh]

/-- C10 at two concrete inputs: a `Run` whose loads succeed publishes the
subset, and a `Run` in which `E` fails to load keeps the old published map. -/
theorem load_publishes_active_subset_witness :
    (Hub.Run demoEnv RangeOrder.stored RangeOrder.stored RangeOrder.stored
        ⟨[("old", 9)], [("A", 1), ("B", 2)], []⟩ "dir" none 0 []).hub.messagerMap
      = Hub.newFiltered demoEnv RangeOrder.stored ⟨[("old", 9)], [("A", 1), ("B", 2)], []⟩ none ∧
    (Hub.Run demoEnv RangeOrder.stored RangeOrder.stored RangeOrder.stored
        ⟨[("old", 9)], [("A", 1), ("E", 5)], []⟩ "dir" none 0 []).hub.messagerMap
      = [("old", 9)] :=
  ⟨((load_publishes_active_subset demoEnv RangeOrder.stored RangeOrder.stored RangeOrder.stored
      ⟨[("old", 9)], [("A", 1), ("B", 2)], []⟩ "dir" none 0 []).1 (by decide)).2.1,
   (load_publishes_active_subset demoEnv RangeOrder.stored RangeOrder.stored RangeOrder.stored
      ⟨[("old", 9)], [("A", 1), ("E", 5)], []⟩ "dir" none 0 []).2.1
        ⟨("E", 5), by decide, by decide⟩⟩

/-- C4, the claim as stated fails: with `A` registered, no filter, and a
loader that knows a messager `X`, the active subset of the `Run` holds the
name `X`, which is not registered; so its names are neither the accepted
registered names nor a subset of the registered names. -/
theorem Run_active_subset_counterexample :
    ¬ (∀ n : String,
        n ∈ names (Hub.Run demoEnv RangeOrder.stored RangeOrder.stored RangeOrder.stored
            ⟨[], [("A", 1)], []⟩ "dir" none 0 []).hub.filteredCheckerMap
          ↔ n ∈ names (Hub.mk [] [("A", 1)] []).checkerMap ∧ accepts none n = true) ∧
    ¬ (∀ n ∈ names (Hub.Run demoEnv RangeOrder.stored RangeOrder.stored RangeOrder.stored
            ⟨[], [("A", 1)], []⟩ "dir" none 0 []).hub.filteredCheckerMap,
        n ∈ names (Hub.mk [] [("A", 1)] []).checkerMap) := by
  have hx : "X" ∈ names (Hub.Run demoEnv RangeOrder.stored RangeOrder.stored RangeOrder.stored
      ⟨[], [("A", 1)], []⟩ "dir" none 0 []).hub.filteredCheckerMap := by decide
  have hn : ¬ "X" ∈ names (Hub.mk [] [("A", 1)] []).checkerMap := by decide
  exact ⟨fun hall => hn ((hall "X").mp hx).1, fun hall => hn (hall "X" hx)⟩

/-- C4, amended: the names of the active subset a `Run` computes are the names
of `h.NewMessagerMap(F)` together with the registered names that `F` accepts
(every registered name when `F` is nil); when every name of
`h.NewMessagerMap(F)` is a registered name accepted by `F`, they are exactly
the accepted registered names, and so a subset of the registered names. -/
theorem Run_active_subset_names (env : Env) (ρ₀ ρ₁ ρ₂ : RangeOrder) (h : Hub) (dir : String)
    (filter : Filter) (format : Format) (options : List OptionFunc) :
    (∀ n : String,
      n ∈ names (h.Run env ρ₀ ρ₁ ρ₂ dir filter format options).hub.filteredCheckerMap
        ↔ n ∈ names (env.NewMessagerMap filter) ∨
          (n ∈ names h.checkerMap ∧ accepts filter n = true)) ∧
    (∀ n : String,
      n ∈ names (h.Run env ρ₀ ρ₁ ρ₂ dir none format options).hub.filteredCheckerMap
        ↔ n ∈ names (env.NewMessagerMap none) ∨ n ∈ names h.checkerMap) ∧
    ((∀ n ∈ names (env.NewMessagerMap filter),
        n ∈ names h.checkerMap ∧ accepts filter n = true) →
      (∀ n : String,
        n ∈ names (h.Run env ρ₀ ρ₁ ρ₂ dir filter format options).hub.filteredCheckerMap
          ↔ n ∈ names h.checkerMap ∧ accepts filter n = true) ∧
      (∀ n ∈ names (h.Run env ρ₀ ρ₁ ρ₂ dir filter format options).hub.filteredCheckerMap,
        n ∈ names h.checkerMap)) := by
  refine ⟨?_, ?_, ?_⟩
  · intro n
    rw [Hub.Run_hub_filtered, mem_names_newFiltered]
  · intro n
    rw [Hub.Run_hub_filtered, mem_names_newFiltered]
    simp [accepts]
  · intro hsub
    have hiff : ∀ n : String,
        n ∈ names (h.Run env ρ₀ ρ₁ ρ₂ dir filter format options).hub.filteredCheckerMap
          ↔ n ∈ names h.checkerMap ∧ accepts filter n = true := by
      intro n
      rw [Hub.Run_hub_filtered, mem_names_newFiltered]
      constructor
      · rintro (h1 | h1)
        · exact hsub n h1
        · exact h1
      · exact Or.inr
    exact ⟨hiff, fun n hn => ((hiff n).mp hn).1⟩

/-- C4, amended, at a concrete input: `A`, `B`, `C` registered, a filter that
accepts only `B`, a loader that then yields nothing. -/
theorem Run_active_subset_names_witness :
    ∀ n ∈ names (Hub.Run demoEnv RangeOrder.stored RangeOrder.stored RangeOrder.stored
        ⟨[], [("A", 1), ("B", 2), ("C", 3)], []⟩ "dir" (some (fun n => n == "B")) 0
        []).hub.filteredCheckerMap,
      n ∈ names (Hub.mk [] [("A", 1), ("B", 2), ("C", 3)] []).checkerMap :=
  ((Run_active_subset_names demoEnv RangeOrder.stored RangeOrder.stored RangeOrder.stored
      ⟨[], [("A", 1), ("B", 2), ("C", 3)], []⟩ "dir" (some (fun n => n == "B")) 0 []).2.2
    (by decide)).2

/-! ## Further properties of `check`, `Register` and `Run` -/

/-- C17: for every integer threshold `k` and every visiting order, `check(k)`
returns `min(max(k, 1), f)` for the number `f` of checkers of the subset whose
`Check` fails; so the count is at most `max(k, 1)` and at most the size of the
subset, is the same for every order, and `check(k)` with `k <= 1` does what
`check(1)` does. -/
theorem check_failed_count (env : Env) (ρ : RangeOrder) (h : Hub) (k : Int) :
    (h.check env ρ k).ret
      = min (max k 1) (h.filteredCheckerMap.countP (failsCheck env) : Int) ∧
    (h.check env ρ k).ret ≤ max k 1 ∧
    (h.check env ρ k).ret ≤ (h.filteredCheckerMap.length : Int) ∧
    (∀ ρ1 : RangeOrder, (h.check env ρ1 k).ret = (h.check env ρ k).ret) ∧
    (k ≤ 1 →
      (h.check env ρ k).calls = (h.check env ρ 1).calls ∧
      (h.check env ρ k).ret = (h.check env ρ 1).ret ∧
      (h.check env ρ k).hub = (h.check env ρ 1).hub) := by
  have hret := Hub.check_ret env ρ h k
  refine ⟨hret, ?_, ?_, ?_, ?_⟩
  · rw [hret]; exact min_le_left _ _
  · rw [hret]
    have : (h.filteredCheckerMap.countP (failsCheck env) : Int)
        ≤ (h.filteredCheckerMap.length : Int) := by
      exact_mod_cast List.countP_le_length (failsCheck env)
    exact (min_le_right _ _).trans this
  · intro ρ1
    rw [hret, Hub.check_ret]
  · intro hk
    have hloop := checkLoop_le_one env k hk (ρ.pick h.filteredCheckerMap) 0 (le_refl 0)
    refine ⟨?_, ?_, rfl⟩
    · show (checkLoop env k (ρ.pick h.filteredCheckerMap) 0).1 = (checkLoop env 1 _ 0).1
      rw [hloop]
    · show (checkLoop env k (ρ.pick h.filteredCheckerMap) 0).2 = (checkLoop env 1 _ 0).2
      rw [hloop]

/-- C17 at a concrete input: the threshold -3 on four checkers, two failing. -/
theorem check_failed_count_witness :
    (Hub.check demoEnv RangeOrder.stored ⟨[], [], [("A", 1), ("B", 2), ("C", 3), ("D", 4)]⟩
        (-3)).calls
      = (Hub.check demoEnv RangeOrder.stored ⟨[], [], [("A", 1), ("B", 2), ("C", 3), ("D", 4)]⟩
        1).calls :=
  ((check_failed_count demoEnv RangeOrder.stored
    ⟨[], [], [("A", 1), ("B", 2), ("C", 3), ("D", 4)]⟩ (-3)).2.2.2.2 (by decide)).1

/-- C14: `Register` returns a nil error for every hub and checker, and the
checker is then the entry of `checkerMap` under its name. -/
theorem Register_never_fails (env : Env) (h : Hub) (msger : Messager) :
    (h.Register env msger).2 = none ∧
    get (h.Register env msger).1.checkerMap (env.Name (env.messagerOf msger)) = some msger ∧
    (h.Register env msger).1.checkerMap.filter
        (fun e => decide (e.1 = env.Name (env.messagerOf msger)))
      = [(env.Name (env.messagerOf msger), msger)] :=
  ⟨rfl, get_set_self _ _ _, filter_set_self _ _ _⟩

/-- C13: every `Load` call of a `Run` is made on a checker of the active
subset with the directory and format given to `Run` and the `SubdirRewrites`
of the parsed options, which for the package's options is the map of the last
`SubdirRewrites` option, or the empty default. -/
theorem Run_load_arguments (env : Env) (ρ₀ ρ₁ ρ₂ : RangeOrder) (h : Hub) (dir : String)
    (filter : Filter) (format : Format) (options : List OptionFunc) :
    (∀ c ∈ (h.Run env ρ₀ ρ₁ ρ₂ dir filter format options).calls, c.isLoad = true →
      ∃ e ∈ h.newFiltered env ρ₀ filter,
        c = Call.load e.2 dir format (ParseOptions options).SubdirRewrites) ∧
    (∀ l : List OptionKind,
      (ParseOptions (l.map OptionKind.toOption)).SubdirRewrites
        = (lastSubdirRewrites l).getD []) := by
  constructor
  · intro c hc hload
    have hmem : c ∈ ((h.selected env ρ₀ filter).load env ρ₁ dir format
        (ParseOptions options).SubdirRewrites).calls := by
      cases hl : ((h.selected env ρ₀ filter).load env ρ₁ dir format
          (ParseOptions options).SubdirRewrites).ret with
      | some err =>
        rw [(Hub.Run_of_load_err env ρ₀ ρ₁ ρ₂ h dir filter format options err hl).2.1] at hc
        exact hc
      | none =>
        rw [(Hub.Run_of_load_nil env ρ₀ ρ₁ ρ₂ h dir filter format options hl).2.1] at hc
        rcases List.mem_append.mp hc with hc | hc
        · exact hc
        · have hcheck := checkLoop_calls_isCheck env _ _ 0 c hc
          cases c <;> simp_all [Call.isCheck, Call.isLoad]
    rw [Hub.load_calls] at hmem
    obtain ⟨e, he, hce⟩ := loadLoop_calls_mem env dir format _ _ c hmem
    exact ⟨e, (mem_pick ρ₁ _ e).mp he, hce⟩
  · intro l
    rw [ParseOptions_SubdirRewrites, foldl_toOption]
    rfl

/-- C19: `Run` leaves `checkerMap` as it was, whatever the outcome, and so do
`load` and `check`; `Register` is the method that writes to it, and it writes
nothing else. -/
theorem Run_keeps_checkerMap (env : Env) (ρ₀ ρ₁ ρ₂ : RangeOrder) (h : Hub) (dir : String)
    (filter : Filter) (format : Format) (options : List OptionFunc) :
    (h.Run env ρ₀ ρ₁ ρ₂ dir filter format options).hub.checkerMap = h.checkerMap ∧
    (∀ rw : StrMap, (h.load env ρ₁ dir format rw).hub.checkerMap = h.checkerMap) ∧
    (∀ k : Int, (h.check env ρ₂ k).hub.checkerMap = h.checkerMap) ∧
    (∀ msger : Messager,
      (h.Register env msger).1.checkerMap
          = set h.checkerMap (env.Name (env.messagerOf msger)) msger ∧
        (h.Register env msger).1.filteredCheckerMap = h.filteredCheckerMap ∧
        (h.Register env msger).1.messagerMap = h.messagerMap) := by
  refine ⟨?_, fun rw => Hub.load_hub_checkerMap env ρ₁ h dir format rw, fun _ => rfl,
    fun _ => ⟨rfl, rfl, rfl⟩⟩
  rw [Hub.Run_hub, Hub.load_hub_checkerMap]
  rfl

/-- C16: for a registry with one checker per name, under every registered
name the filter accepts (every registered name when the filter is nil) the
active subset of a `Run` holds exactly one entry, the `Messager()` value of the
registered checker, whatever `h.NewMessagerMap(filter)` held there; under every
other name it holds what `h.NewMessagerMap(filter)` produced. -/
theorem Run_stores_Messager_value (env : Env) (ρ₀ ρ₁ ρ₂ : RangeOrder) (h : Hub) (dir : String)
    (filter : Filter) (format : Format) (options : List OptionFunc)
    (hwf : (names h.checkerMap).Nodup) :
    (∀ (n : String) (c : Messager), (n, c) ∈ h.checkerMap → accepts filter n = true →
      (h.Run env ρ₀ ρ₁ ρ₂ dir filter format options).hub.filteredCheckerMap.filter
          (fun e => decide (e.1 = n)) = [(n, env.messagerOf c)] ∧
      get (h.Run env ρ₀ ρ₁ ρ₂ dir filter format options).hub.filteredCheckerMap n
        = some (env.messagerOf c)) ∧
    (∀ n : String, ¬ (n ∈ names h.checkerMap ∧ accepts filter n = true) →
      (h.Run env ρ₀ ρ₁ ρ₂ dir filter format options).hub.filteredCheckerMap.filter
          (fun e => decide (e.1 = n))
        = (env.NewMessagerMap filter).filter (fun e => decide (e.1 = n)) ∧
      get (h.Run env ρ₀ ρ₁ ρ₂ dir filter format options).hub.filteredCheckerMap n
        = get (env.NewMessagerMap filter) n) := by
  constructor
  · intro n c hmem ha
    have hf : (h.Run env ρ₀ ρ₁ ρ₂ dir filter format options).hub.filteredCheckerMap.filter
        (fun e => decide (e.1 = n)) = [(n, env.messagerOf c)] := by
      rw [Hub.Run_hub_filtered]
      exact filter_foldl_mem env filter _ _ n c (names_pick_nodup ρ₀ _ hwf)
        ((mem_pick ρ₀ _ _).mpr hmem) ha
    exact ⟨hf, by rw [get_eq_head_filter, hf]; rfl⟩
  · intro n hn
    have hn2 : ¬ (n ∈ names (ρ₀.pick h.checkerMap) ∧ accepts filter n = true) := by
      rintro ⟨h1, h2⟩
      obtain ⟨e, he, rfl⟩ := List.mem_map.mp h1
      exact hn ⟨List.mem_map_of_mem _ ((mem_pick ρ₀ _ e).mp he), h2⟩
    have hf : (h.Run env ρ₀ ρ₁ ρ₂ dir filter format options).hub.filteredCheckerMap.filter
        (fun e => decide (e.1 = n))
          = (env.NewMessagerMap filter).filter (fun e => decide (e.1 = n)) := by
      rw [Hub.Run_hub_filtered]
      exact filter_foldl_other env filter _ _ n hn2
    exact ⟨hf, by rw [get_eq_head_filter, hf, ← get_eq_head_filter]⟩

/-- C16 at a concrete input: the loader yields reference 8 under `X`, the
registry holds reference 6 under `X`; the active subset holds 6. -/
theorem Run_stores_Messager_value_witness :
    get (Hub.Run demoEnv RangeOrder.stored RangeOrder.stored RangeOrder.stored
      ⟨[], [("A", 1), ("X", 6)], []⟩ "dir" none 0 []).hub.filteredCheckerMap "X"
        = some (demoEnv.messagerOf 6) :=
  ((Run_stores_Messager_value demoEnv RangeOrder.stored RangeOrder.stored RangeOrder.stored
    ⟨[], [("A", 1), ("X", 6)], []⟩ "dir" none 0 [] (by decide)).1 "X" 6 (by decide) rfl).2

/-- C18: in the calls of a `Run`, every `Check` call on a checker comes after
a `Load` call on that checker, made with the arguments of this `Run`, that
succeeded. -/
theorem Run_check_after_load (env : Env) (ρ₀ ρ₁ ρ₂ : RangeOrder) (h : Hub) (dir : String)
    (filter : Filter) (format : Format) (options : List OptionFunc)
    (pre post : List Call) (m : Messager)
    (hcut : (h.Run env ρ₀ ρ₁ ρ₂ dir filter format options).calls = pre ++ Call.check m :: post) :
    Call.load m dir format (ParseOptions options).SubdirRewrites ∈ pre ∧
    env.Load m dir format (ParseOptions options).SubdirRewrites = none := by
  have hLoads := loadLoop_calls_isLoad env dir format (ParseOptions options).SubdirRewrites
    (ρ₁.pick (h.selected env ρ₀ filter).filteredCheckerMap)
  cases hl : ((h.selected env ρ₀ filter).load env ρ₁ dir format
      (ParseOptions options).SubdirRewrites).ret with
  | some err =>
    rw [(Hub.Run_of_load_err env ρ₀ ρ₁ ρ₂ h dir filter format options err hl).2.1,
      Hub.load_calls] at hcut
    have hmem : Call.check m ∈ (loadLoop env dir format (ParseOptions options).SubdirRewrites
        (ρ₁.pick (h.selected env ρ₀ filter).filteredCheckerMap)).1 := by
      rw [hcut]; simp
    exact absurd (hLoads _ hmem) (by simp [Call.isLoad])
  | none =>
    have hok := Hub.load_nil_all_ok env ρ₁ _ dir format _ hl
    obtain ⟨_, hcalls, hhub⟩ := Hub.load_ok env ρ₁ (h.selected env ρ₀ filter) dir format
      (ParseOptions options).SubdirRewrites hok
    rw [(Hub.Run_of_load_nil env ρ₀ ρ₁ ρ₂ h dir filter format options hl).2.1] at hcut
    have hL : ∀ c ∈ ((h.selected env ρ₀ filter).load env ρ₁ dir format
        (ParseOptions options).SubdirRewrites).calls, c.isLoad = true := by
      rw [Hub.load_calls]; exact hLoads
    obtain ⟨mid, hpre, hC⟩ := append_cut _ _ pre post (Call.check m) hL
      (by simp [Call.isLoad]) hcut
    have hmem : Call.check m ∈ (((h.selected env ρ₀ filter).load env ρ₁ dir format
        (ParseOptions options).SubdirRewrites).hub.check env ρ₂
          (ParseOptions options).BreakFailedCount).calls := by
      rw [hC]; simp
    obtain ⟨e, he, hce⟩ := checkLoop_calls_mem env _ _ 0 _ hmem
    have hm : m = e.2 := by
      simpa [checkCall] using hce
    have he2 : e ∈ (h.selected env ρ₀ filter).filteredCheckerMap := by
      have := (mem_pick ρ₂ _ e).mp he
      rw [hhub] at this
      exact this
    constructor
    · rw [hpre, hcalls, hm]
      exact List.mem_append_left _
        (List.mem_map_of_mem (loadCall dir format (ParseOptions options).SubdirRewrites)
          ((mem_pick ρ₁ _ e).mpr he2))
    · have := hok e he2
      rw [hm]
      simpa [failsLoad] using this

/-- C18 at a concrete input: two registered checkers and the loader's `X` are
loaded, then `A` is checked and fails. -/
theorem Run_check_after_load_witness :
    Call.load 1 "dir" 0 (ParseOptions []).SubdirRewrites
        ∈ [Call.load 2 "dir" 0 [], Call.load 1 "dir" 0 [], Call.load 8 "dir" 0 [],
            Call.check 2] ∧
      demoEnv.Load 1 "dir" 0 (ParseOptions []).SubdirRewrites = none :=
  Run_check_after_load demoEnv RangeOrder.stored RangeOrder.stored RangeOrder.stored
    ⟨[], [("A", 1), ("B", 2)], []⟩ "dir" none 0 []
    [Call.load 2 "dir" 0 [], Call.load 1 "dir" 0 [], Call.load 8 "dir" 0 [], Call.check 2] []
    1 (by decide)

/-- C12: the `filteredCheckerMap` left by a second `Run` is the map built from
the registry and the second filter alone, the same as if the first `Run`, with
whatever filter, options and outcome, had not happened; when the loader
honours the filter it is given, a name the second filter rejects is absent
from it. -/
theorem Run_overwrites_filteredCheckerMap (env : Env) (σ₀ σ₁ σ₂ ρ₀ ρ₁ ρ₂ : RangeOrder) (h : Hub)
    (dir1 dir2 : String) (F1 F2 : Filter) (format1 format2 : Format)
    (options1 options2 : List OptionFunc) :
    ((h.Run env σ₀ σ₁ σ₂ dir1 F1 format1 options1).hub.Run env ρ₀ ρ₁ ρ₂ dir2 F2 format2
        options2).hub.filteredCheckerMap
      = (h.Run env ρ₀ ρ₁ ρ₂ dir2 F2 format2 options2).hub.filteredCheckerMap ∧
    ((h.Run env σ₀ σ₁ σ₂ dir1 F1 format1 options1).hub.Run env ρ₀ ρ₁ ρ₂ dir2 F2 format2
        options2).hub.filteredCheckerMap
      = h.newFiltered env ρ₀ F2 ∧
    (env.HonoursFilter → ∀ n : String, accepts F2 n = false →
      n ∉ names ((h.Run env σ₀ σ₁ σ₂ dir1 F1 format1 options1).hub.Run env ρ₀ ρ₁ ρ₂ dir2 F2
        format2 options2).hub.filteredCheckerMap) := by
  have hsame : ((h.Run env σ₀ σ₁ σ₂ dir1 F1 format1 options1).hub.Run env ρ₀ ρ₁ ρ₂ dir2 F2
      format2 options2).hub.filteredCheckerMap = h.newFiltered env ρ₀ F2 := by
    rw [Hub.Run_hub_filtered]
    exact Hub.newFiltered_congr env ρ₀ _ h F2 (Hub.Run_hub_checkerMap env σ₀ σ₁ σ₂ h dir1 F1
      format1 options1)
  refine ⟨by rw [hsame, Hub.Run_hub_filtered], hsame, ?_⟩
  intro hnew n hrej hmem
  rw [hsame, mem_names_newFiltered] at hmem
  rcases hmem with hmem | hmem
  · rw [hnew F2 n hmem] at hrej
    exact Bool.noConfusion hrej
  · rw [hmem.2] at hrej
    exact Bool.noConfusion hrej

/-- C12 at a concrete input: a first `Run` that accepts every name and fails
to load `E`, then a `Run` that accepts only `B`; the name `A` is gone. -/
theorem Run_overwrites_filteredCheckerMap_witness :
    "A" ∉ names ((Hub.Run demoEnv RangeOrder.stored RangeOrder.stored RangeOrder.stored
        ⟨[], [("A", 1), ("B", 2), ("E", 5)], []⟩ "dir" none 0 []).hub.Run demoEnv
        RangeOrder.stored RangeOrder.stored RangeOrder.stored "dir"
        (some (fun n => n == "B")) 0 []).hub.filteredCheckerMap :=
  (Run_overwrites_filteredCheckerMap demoEnv RangeOrder.stored RangeOrder.stored
    RangeOrder.stored RangeOrder.stored RangeOrder.stored RangeOrder.stored
    ⟨[], [("A", 1), ("B", 2), ("E", 5)], []⟩ "dir" "dir" none (some (fun n => n == "B")) 0 0
    [] []).2.2 demoEnv_honoursFilter "A" (by decide)

/-- C11: with `A`, `B`, `C` registered under three names, a filter that
accepts exactly the names of `A` and `C`, a loader that honours the filter,
`Load` succeeding for `A` and `C`, `Check` failing for `A` and passing for `C`,
and `BreakFailedCount` 1, for every visiting order `Run` returns the error
`Check failed count: 1`, and every call it makes is on `A` or `C`, none on
`B`. -/
theorem Run_scenario_filtered_failure (env : Env) (ρ₀ ρ₁ ρ₂ : RangeOrder) (h : Hub)
    (dir : String) (filter : Filter) (format : Format) (options : List OptionFunc)
    (A B C : Messager)
    (hreg : h.checkerMap.Perm
      [(env.Name (env.messagerOf A), A), (env.Name (env.messagerOf B), B),
        (env.Name (env.messagerOf C), C)])
    (hAC : env.Name (env.messagerOf A) ≠ env.Name (env.messagerOf C))
    (hBA : env.Name (env.messagerOf B) ≠ env.Name (env.messagerOf A))
    (hBC : env.Name (env.messagerOf B) ≠ env.Name (env.messagerOf C))
    (hfilter : ∀ n : String, accepts filter n = true ↔
      n = env.Name (env.messagerOf A) ∨ n = env.Name (env.messagerOf C))
    (hnew : env.HonoursFilter)
    (hloadA : env.Load (env.messagerOf A) dir format (ParseOptions options).SubdirRewrites = none)
    (hloadC : env.Load (env.messagerOf C) dir format (ParseOptions options).SubdirRewrites = none)
    (hcheckA : (env.Check (env.messagerOf A)).isSome = true)
    (hcheckC : env.Check (env.messagerOf C) = none)
    (hk : (ParseOptions options).BreakFailedCount = 1)
    (hB : B ≠ env.messagerOf A ∧ B ≠ env.messagerOf C ∧
      env.messagerOf B ≠ env.messagerOf A ∧ env.messagerOf B ≠ env.messagerOf C) :
    (h.Run env ρ₀ ρ₁ ρ₂ dir filter format options).ret
      = some (Err.msg "Check failed count: 1") ∧
    (∀ c ∈ (h.Run env ρ₀ ρ₁ ρ₂ dir filter format options).calls,
      c.target = env.messagerOf A ∨ c.target = env.messagerOf C) ∧
    (∀ c ∈ (h.Run env ρ₀ ρ₁ ρ₂ dir filter format options).calls,
      c.target ≠ B ∧ c.target ≠ env.messagerOf B) := by
  have hwf : (names h.checkerMap).Nodup := by
    have hp : (names h.checkerMap).Perm
        [env.Name (env.messagerOf A), env.Name (env.messagerOf B),
          env.Name (env.messagerOf C)] := hreg.map Prod.fst
    rw [hp.nodup_iff]
    simp [hAC, hBC, Ne.symm hBA]
  have hmemA : (env.Name (env.messagerOf A), A) ∈ ρ₀.pick h.checkerMap :=
    (mem_pick ρ₀ _ _).mpr (hreg.mem_iff.mpr (by simp))
  have hmemC : (env.Name (env.messagerOf C), C) ∈ ρ₀.pick h.checkerMap :=
    (mem_pick ρ₀ _ _).mpr (hreg.mem_iff.mpr (by simp))
  have hatA : (h.newFiltered env ρ₀ filter).filter
      (fun e => decide (e.1 = env.Name (env.messagerOf A)))
        = [(env.Name (env.messagerOf A), env.messagerOf A)] :=
    filter_foldl_mem env filter _ _ _ A (names_pick_nodup ρ₀ _ hwf) hmemA
      ((hfilter _).mpr (Or.inl rfl))
  have hatC : (h.newFiltered env ρ₀ filter).filter
      (fun e => decide (e.1 = env.Name (env.messagerOf C)))
        = [(env.Name (env.messagerOf C), env.messagerOf C)] :=
    filter_foldl_mem env filter _ _ _ C (names_pick_nodup ρ₀ _ hwf) hmemC
      ((hfilter _).mpr (Or.inr rfl))
  have hmem : ∀ e ∈ h.newFiltered env ρ₀ filter,
      e = (env.Name (env.messagerOf A), env.messagerOf A) ∨
        e = (env.Name (env.messagerOf C), env.messagerOf C) := by
    intro e he
    have hacc : accepts filter e.1 = true := by
      have hn : e.1 ∈ names (h.newFiltered env ρ₀ filter) := List.mem_map_of_mem _ he
      rcases (mem_names_newFiltered env ρ₀ h filter e.1).mp hn with h1 | h1
      · exact hnew filter e.1 h1
      · exact h1.2
    rcases (hfilter e.1).mp hacc with h1 | h1
    · have : e ∈ (h.newFiltered env ρ₀ filter).filter
          (fun e => decide (e.1 = env.Name (env.messagerOf A))) :=
        List.mem_filter.mpr ⟨he, by simpa using h1⟩
      rw [hatA] at this
      exact Or.inl (List.mem_singleton.mp this)
    · have : e ∈ (h.newFiltered env ρ₀ filter).filter
          (fun e => decide (e.1 = env.Name (env.messagerOf C))) :=
        List.mem_filter.mpr ⟨he, by simpa using h1⟩
      rw [hatC] at this
      exact Or.inr (List.mem_singleton.mp this)
  have hok : ∀ e ∈ h.newFiltered env ρ₀ filter,
      failsLoad env dir format (ParseOptions options).SubdirRewrites e = false := by
    intro e he
    rcases hmem e he with rfl | rfl
    · simp [failsLoad, hloadA]
    · simp [failsLoad, hloadC]
  have hcount : (h.newFiltered env ρ₀ filter).countP (failsCheck env) = 1 := by
    have hcongr : (h.newFiltered env ρ₀ filter).countP (failsCheck env)
        = (h.newFiltered env ρ₀ filter).countP
            (fun e => decide (e.1 = env.Name (env.messagerOf A))) := by
      apply List.countP_congr
      intro e he
      rcases hmem e he with rfl | rfl
      · simp [failsCheck, hcheckA]
      · simp [failsCheck, hcheckC, Ne.symm hAC]
    rw [hcongr, List.countP_eq_length_filter, hatA]
    rfl
  have hret := Hub.Run_ret_of_load_ok env ρ₀ ρ₁ ρ₂ h dir filter format options hok
  have hn : (((h.selected env ρ₀ filter).SetMessagerMap (h.newFiltered env ρ₀ filter)).check
      env ρ₂ (ParseOptions options).BreakFailedCount).ret = 1 := by
    rw [Hub.check_ret, hk]
    show min (max (1 : Int) 1) (((h.newFiltered env ρ₀ filter).countP (failsCheck env) : Nat) : Int)
      = 1
    rw [hcount]
    rfl
  have htargets : ∀ c ∈ (h.Run env ρ₀ ρ₁ ρ₂ dir filter format options).calls,
      c.target = env.messagerOf A ∨ c.target = env.messagerOf C := by
    intro c hc
    obtain ⟨e, he, hce⟩ := Hub.Run_calls_target env ρ₀ ρ₁ ρ₂ h dir filter format options c hc
    rcases hmem e he with rfl | rfl
    · exact Or.inl hce
    · exact Or.inr hce
  refine ⟨?_, htargets, ?_⟩
  · rw [hret, hn]
    rfl
  · intro c hc
    rcases htargets c hc with h1 | h1
    · rw [h1]; exact ⟨Ne.symm hB.1, Ne.symm hB.2.2.1⟩
    · rw [h1]; exact ⟨Ne.symm hB.2.1, Ne.symm hB.2.2.2⟩

/-- C11 at a concrete input: references 1, 2 and 4 registered under `A`, `B`
and `D`, the filter accepting `A` and `D`, the subset visited in reverse. -/
theorem Run_scenario_filtered_failure_witness :
    (Hub.Run demoEnv RangeOrder.stored RangeOrder.reversed RangeOrder.reversed
        (Hub.Register demoEnv (Hub.Register demoEnv (Hub.Register demoEnv ⟨[], [], []⟩ 1).1 2).1
          4).1
        "dir" (some (fun n => n == "A" || n == "D")) 0 [BreakFailedCount 1]).ret
      = some (Err.msg "Check failed count: 1") :=
  (Run_scenario_filtered_failure demoEnv RangeOrder.stored RangeOrder.reversed
    RangeOrder.reversed
    (Hub.Register demoEnv (Hub.Register demoEnv (Hub.Register demoEnv ⟨[], [], []⟩ 1).1 2).1 4).1
    "dir" (some (fun n => n == "A" || n == "D")) 0 [BreakFailedCount 1] 1 2 4
    (by decide) (by decide) (by decide) (by decide)
    (by intro n; simp [accepts, demoEnv])
    demoEnv_honoursFilter rfl rfl rfl rfl (by decide) (by decide)).1

end Checker
